import Mathlib

/-!
Shallow embedding of the marketplace content-management backend
(`src/server.js`, `src/auth.js`): the product normalizer, the catalog
store, the product-submission review pipeline, product listing with
pagination, and the session/identity layer.

Conventions of the embedding:
* JavaScript runtime values are modelled by `JsVal`; JS numbers by `JsNum`
  (NaN / ±Infinity / finite rationals — the claims under study never
  depend on floating-point rounding).
* `String(x)`, `Number(x)`, truthiness, `||` defaults, spread, and
  `deepMerge` are modelled faithfully on `JsVal`.
* Clock reads (`Date.now()`, `new Date().toISOString()`, sqlite
  `datetime('now')`) are threaded as explicit parameters `nowMs : ℕ`
  and `now : String`.
* The relational store is the explicit state `Db` passed through each
  operation; a thrown error with `statusCode` is an `Except Err` result.
-/

/-- JS number: NaN, ±Infinity, or a finite value (modelled as a rational). -/
inductive JsNum where
  | nan
  | inf
  | ninf
  | fin (q : ℚ)
deriving DecidableEq, Repr

/-- JS runtime value as relevant to this code base. -/
inductive JsVal where
  | undef
  | null
  | bool (b : Bool)
  | num (n : JsNum)
  | str (s : String)
  | arr (elems : List JsVal)
  | obj (fields : List (String × JsVal))
deriving Repr

/-- JS truthiness. -/
@[simp] def JsVal.truthy : JsVal → Bool
  | .undef => false
  | .null => false
  | .bool b => b
  | .num .nan => false
  | .num (.fin q) => decide (q ≠ 0)
  | .num _ => true
  | .str s => decide (s ≠ "")
  | .arr _ => true
  | .obj _ => true

@[simp] def JsVal.isNullish : JsVal → Bool
  | .undef => true
  | .null => true
  | _ => false

/-- Whitespace recognised by `String.prototype.trim` (common subset). -/
@[simp] def isJsSpace (c : Char) : Bool :=
  c = ' ' || c = '\t' || c = '\n' || c = '\r' || c = '\x0b' || c = '\x0c'

@[simp] def dropRightWhile (p : Char → Bool) (l : List Char) : List Char :=
  (l.reverse.dropWhile p).reverse

/-- `String.prototype.trim`. -/
@[simp] def jsTrim (s : String) : String :=
  ⟨dropRightWhile isJsSpace (s.data.dropWhile isJsSpace)⟩

/-- `String.prototype.toLowerCase` (ASCII). -/
@[simp] def jsToLower (s : String) : String :=
  ⟨s.data.map Char.toLower⟩

@[simp] def leadMatch : List Char → List Char → Bool
  | [], _ => true
  | _ :: _, [] => false
  | a :: as, b :: bs => a = b && leadMatch as bs

@[simp] def charsIncludes : List Char → List Char → Bool
  | [], needle => leadMatch needle []
  | c :: rest, needle => leadMatch needle (c :: rest) || charsIncludes rest needle

/-- `haystack.includes(needle)`. -/
@[simp] def jsIncludes (hay needle : String) : Bool :=
  charsIncludes hay.data needle.data

@[simp] def splitCharsOn (sep : Char) : List Char → List (List Char)
  | [] => [[]]
  | c :: rest =>
    match splitCharsOn sep rest with
    | [] => if c = sep then [[], []] else [[c]]
    | h :: t => if c = sep then [] :: h :: t else (c :: h) :: t

/-- Split a string on newline characters (models the `/\r?\n/g` split:
a carriage return left at a chunk end is removed by the subsequent
`trim`, so splitting on `\n` alone is observationally equal). -/
@[simp] def splitNewlines (s : String) : List String :=
  (splitCharsOn '\n' s.data).map fun cs => (⟨cs⟩ : String)

@[simp] def isDigitChar (c : Char) : Bool := '0' ≤ c && c ≤ '9'

@[simp] def natFromDigits (cs : List Char) : ℕ :=
  cs.foldl (fun a c => a * 10 + (c.toNat - 48)) 0

/-- Parse the unsigned decimal part of a JS numeric string:
digits, optionally a decimal point and more digits (at least one digit
overall, nothing left over). Exponent/hex forms are modelled as
unparseable; this code base never feeds them to `Number`. -/
@[simp] def parseUnsignedJsNum (cs : List Char) : Option ℚ :=
  let ds := cs.takeWhile isDigitChar
  let rest := cs.dropWhile isDigitChar
  match rest with
  | [] => if ds.isEmpty then none else some (natFromDigits ds)
  | '.' :: rest2 =>
    let fs := rest2.takeWhile isDigitChar
    let rest3 := rest2.dropWhile isDigitChar
    if ¬rest3.isEmpty then none
    else if ds.isEmpty && fs.isEmpty then none
    else some ((natFromDigits ds : ℚ) + (natFromDigits fs : ℚ) / (10 ^ fs.length))
  | _ => none

/-- `Number(string)`. -/
@[simp] def parseJsNumber (s : String) : JsNum :=
  let t := jsTrim s
  if t = "" then .fin 0
  else
    match t.data with
    | '-' :: rest =>
      if rest = "Infinity".data then .ninf
      else match parseUnsignedJsNum rest with
           | some q => .fin (-q)
           | none => .nan
    | '+' :: rest =>
      if rest = "Infinity".data then .inf
      else match parseUnsignedJsNum rest with
           | some q => .fin q
           | none => .nan
    | cs =>
      if cs = "Infinity".data then .inf
      else match parseUnsignedJsNum cs with
           | some q => .fin q
           | none => .nan

@[simp] def numToStrAux (q : ℚ) (k : ℕ) : String :=
  if (10 ^ k * q.num) % (q.den : ℤ) = 0 then
    let scaled := (10 ^ k * q.num) / (q.den : ℤ)
    let mag := scaled.natAbs
    let digits := toString mag
    let pad := if digits.length ≤ k then String.mk (List.replicate (k + 1 - digits.length) '0') ++ digits else digits
    let cut := pad.length - k
    (if q.num < 0 then "-" else "") ++ ⟨pad.data.take cut⟩ ++ "." ++ ⟨pad.data.drop cut⟩
  else
    toString q.num ++ "/" ++ toString q.den

/-- `String(number)`: integers print plainly; finite decimals print with a
decimal point (the only non-integers this code base can produce); other
rationals fall back to a fraction rendering (unreachable for JS doubles). -/
@[simp] def numToStr : JsNum → String
  | .nan => "NaN"
  | .inf => "Infinity"
  | .ninf => "-Infinity"
  | .fin q =>
    if q.den = 1 then toString q.num
    else
      let k := (List.range 40).find? fun k => (10 ^ k * q.num) % (q.den : ℤ) = 0
      match k with
      | some k => numToStrAux q k
      | none => toString q.num ++ "/" ++ toString q.den

mutual

/-- `String(value)`. An array stringifies as its elements joined by
commas, `null`/`undefined` elements joining as empty strings. -/
@[simp] def jsToStr : JsVal → String
  | .undef => "undefined"
  | .null => "null"
  | .bool b => cond b "true" "false"
  | .num n => numToStr n
  | .str s => s
  | .obj _ => "[object Object]"
  | .arr es => jsJoinElems es
termination_by v => 2 * sizeOf v

/-- `Array.prototype.join(",")` over the stringified elements. -/
@[simp] def jsJoinElems : List JsVal → String
  | [] => ""
  | [e] => jsElemStr e
  | e :: rest => jsElemStr e ++ "," ++ jsJoinElems rest
termination_by l => 2 * sizeOf l + 1

/-- One joined element: `null`/`undefined` become empty strings. -/
@[simp] def jsElemStr : JsVal → String
  | .undef => ""
  | .null => ""
  | v => jsToStr v
termination_by v => 2 * sizeOf v + 2

end

/-- `Number(value)`. An array coerces through its string form. -/
@[simp] def jsToNum (v : JsVal) : JsNum :=
  match v with
  | .undef => .nan
  | .null => .fin 0
  | .bool b => .fin (cond b 1 0)
  | .num n => n
  | .str s => parseJsNumber s
  | .arr es => parseJsNumber (jsToStr (.arr es))
  | .obj _ => .nan

/-- JS strict equality on numbers (`===`): NaN equals nothing. -/
@[simp] def jsStrictEqNum (a b : JsNum) : Bool :=
  match a, b with
  | .nan, _ => false
  | _, .nan => false
  | x, y => x = y

/-- Property read `v.k` (missing properties and non-objects give
`undefined`; a JS array has no string-named own data properties). -/
@[simp] def getField (v : JsVal) (k : String) : JsVal :=
  match v with
  | .obj fs =>
    match fs.find? (fun f => f.1 = k) with
    | some f => f.2
    | none => .undef
  | _ => (.undef)

/-- `target[k] = v` on an object encoded as an ordered field list:
an existing key keeps its position, a new key is appended (JS object /
`Map` insertion-order semantics). -/
@[simp] def setKey {α : Type} : List (String × α) → String → α → List (String × α)
  | [], k, v => [(k, v)]
  | (k', v') :: rest, k, v =>
    if k' = k then (k, v) :: rest else (k', v') :: setKey rest k v

/-- First-match association lookup (after `setKey`-construction keys are
unique, so this is the JS `Map.get` / property read). -/
@[simp] def getKey? {α : Type} : List (String × α) → String → Option α
  | [], _ => none
  | (k', v') :: rest, k => if k' = k then some v' else getKey? rest k

def jsDigitChar (d : ℕ) : Char := Char.ofNat (48 + d)

/-- Decimal digits of `n`, most significant first (`fuel ≥ n` suffices). -/
def natToStrGo (fuel n : ℕ) : List Char :=
  match fuel with
  | 0 => [jsDigitChar (n % 10)]
  | f + 1 => if n < 10 then [jsDigitChar n] else natToStrGo f (n / 10) ++ [jsDigitChar (n % 10)]

/-- Decimal rendering of a natural number (`String(n)` for array/string
indices turned into object keys by spread). -/
def natToStr (n : ℕ) : String := ⟨natToStrGo n n⟩

/-- `f` applied with a running index, starting at `i`
(JS `map((x, i) => ...)` with an offset). -/
@[simp] def idxMapFrom {α β : Type} (f : ℕ → α → β) : ℕ → List α → List β
  | _, [] => []
  | i, a :: rest => f i a :: idxMapFrom f (i + 1) rest

/-- Own enumerable fields produced by spread `... (v)`: objects give their
fields, arrays and strings their index-keyed elements/characters,
everything else none. -/
@[simp] def jsSpreadFields : JsVal → List (String × JsVal)
  | .obj fs => fs
  | .arr es => idxMapFrom (fun i e => (natToStr i, e)) 0 es
  | .str s => idxMapFrom (fun i c => (natToStr i, JsVal.str ⟨[c]⟩)) 0 s.data
  | _ => []

mutual

/-- `deepMerge(target, source)` from `server.js`: a non-object source
returns the target; an array source deep-clones; an object source is
merged key by key onto a copy of the target (array targets restart from
a fresh empty array, whose string-keyed assignments are invisible to
JSON persistence and are modelled as dropped). -/
@[simp] def deepMerge : JsVal → JsVal → JsVal
  | _, .arr es => .arr (cloneItems es)
  | .arr _, .obj _ =>
    -- next = [] (a fresh array); string-keyed props assigned onto it do
    -- not survive JSON serialization, so the merged value behaves as [].
    .arr []
  | t, .obj fs => .obj (mergeEntries (jsSpreadFields t) fs)
  | t, _ => t
termination_by _t s => 2 * sizeOf s

/-- Element-wise deep clone used for array values inside `deepMerge`. -/
@[simp] def cloneItems : List JsVal → List JsVal
  | [] => []
  | item :: rest => cloneItem item :: cloneItems rest
termination_by l => 2 * sizeOf l

/-- Clone of a single array element inside `deepMerge`
(`item && typeof item === "object" ? deepMerge(fresh, item) : item`). -/
@[simp] def cloneItem : JsVal → JsVal
  | .arr es => .arr (cloneItems es)
  | .obj fs => deepMerge (.obj []) (.obj fs)
  | x => x
termination_by v => 2 * sizeOf v + 1

/-- One `next[key] = ...` assignment of the `deepMerge` entry loop. -/
@[simp] def assignEntry (next : List (String × JsVal)) (k : String) : JsVal → List (String × JsVal)
  | .arr es => setKey next k (.arr (cloneItems es))
  | .obj fs =>
    let cur := (getKey? next k).getD .undef
    let base := if cur.truthy then cur else .obj []
    setKey next k (deepMerge base (.obj fs))
  | x => setKey next k x
termination_by v => 2 * sizeOf v + 1

/-- The `Object.entries(source).forEach` assignment loop of `deepMerge`. -/
@[simp] def mergeEntries : List (String × JsVal) → List (String × JsVal) → List (String × JsVal)
  | next, [] => next
  | next, (k, v) :: rest => mergeEntries (assignEntry next k v) rest
termination_by _n fs => 2 * sizeOf fs

end

example : deepMerge (.obj [("a", .str "x")]) (.obj [("b", .num (.fin 1))]) =
    .obj [("a", .str "x"), ("b", .num (.fin 1))] := by
  simp [deepMerge, mergeEntries, assignEntry, jsSpreadFields, setKey]

/-- `value || default` for a string-valued coercion: `String(v || d)`. -/
def jsStrOrDefault (v : JsVal) (d : String) : String :=
  if v.truthy then jsToStr v else d

@[simp] def GALLERY_TYPES : List String :=
  ["art", "designs", "books", "photography", "sculpture"]

@[simp] def PRODUCT_STATUSES : List String :=
  ["active", "inactive", "draft"]

@[simp] def ACCOUNT_STATUSES : List String :=
  ["active", "disabled"]

/-- `toNumberOrNull` from `server.js` (`null`/`undefined`/`""` and
non-finite coercions give null). -/
def toNumberOrNull (value : JsVal) : Option ℚ :=
  match value with
  | .null => none
  | .undef => none
  | .str "" => none
  | v =>
    match jsToNum v with
    | .fin q => some q
    | _ => none

/-- `toGalleryType` from `server.js`: trims+lowercases, maps the legacy
value `furniture` to `designs`, keeps enum members, defaults to `art`. -/
def toGalleryType (value : JsVal) : String :=
  let normalized := jsToLower (jsTrim (jsStrOrDefault value ""))
  if normalized = "furniture" then "designs"
  else if GALLERY_TYPES.contains normalized then normalized
  else "art"

/-- `toProductStatus` from `server.js`. -/
def toProductStatus (value : JsVal) : String :=
  let normalized := jsToLower (jsTrim (jsStrOrDefault value ""))
  if PRODUCT_STATUSES.contains normalized then normalized else "active"

/-- `parseMediaImages` from `server.js`. -/
def parseMediaImages (value : JsVal) : List String :=
  match value with
  | .arr items => (items.map fun item => jsTrim (jsStrOrDefault item "")).filter fun s => s ≠ ""
  | .str s => ((splitNewlines s).map jsTrim).filter fun t => t ≠ ""
  | _ => []

@[simp] def PRODUCT_NORMALIZED_FIELDS : List String :=
  ["id", "name", "gallery_type", "category", "status", "sort_order",
   "artist_name", "artist_role", "artist_image_url", "artist_bio",
   "image_url", "media_images", "model_url", "theme", "color", "size",
   "tag", "kicker", "material", "dimensions", "store_name", "store_lng",
   "store_lat", "medium", "period", "era", "year", "rating",
   "rating_count", "base_price", "owner_user_id", "created_at",
   "updated_at", "extra_fields"]

/-- `extractProductExtraFields` from `server.js`: unknown top-level keys
merged under any nested `extra_fields` object, nested winning. -/
def extractProductExtraFields (product : JsVal) : List (String × JsVal) :=
  let input := match product with
               | .obj fs => fs
               | _ => []
  let extrasFromUnknown := input.filter fun f => ¬ PRODUCT_NORMALIZED_FIELDS.contains f.1
  let extrasFromField := match getKey? input "extra_fields" with
                         | some (.obj efs) => efs
                         | _ => []
  mergeEntries (mergeEntries [] extrasFromUnknown) extrasFromField

/-- Canonical product record produced by `normalizeProduct`. -/
structure Product where
  id : String
  name : String
  gallery_type : String
  category : String
  status : String
  sort_order : ℚ
  artist_name : String
  artist_role : String
  artist_image_url : String
  artist_bio : String
  image_url : String
  media_images : List String
  model_url : String
  theme : String
  color : String
  size : String
  tag : String
  kicker : String
  material : String
  dimensions : String
  store_name : String
  store_lng : Option ℚ
  store_lat : Option ℚ
  medium : String
  period : String
  era : String
  year : Option ℚ
  rating : Option ℚ
  rating_count : String
  base_price : Option ℚ
  owner_user_id : Option ℚ
  created_at : String
  updated_at : String
  extra_fields : List (String × JsVal)
deriving Repr

/-- `normalizeProduct` from `server.js`. `index` is the caller's loop
index, `nowMs` models `Date.now()`, `now` models
`new Date().toISOString()`. -/
def normalizeProduct (product : JsVal) (index : ℕ) (nowMs : ℕ) (now : String) : Product :=
  let p := match product with
           | .obj fs => JsVal.obj fs
           | .arr es => JsVal.arr es
           | _ => JsVal.obj []
  let galleryType := toGalleryType (getField p "gallery_type")
  let defaultCategory :=
    if galleryType = "art" then "Artwork"
    else if galleryType = "sculpture" then "Sculpture"
    else "All"
  { id := jsStrOrDefault (getField p "id") ("prod-" ++ natToStr nowMs ++ "-" ++ natToStr index)
    name := jsStrOrDefault (getField p "name") "Untitled Product"
    gallery_type := galleryType
    category := jsStrOrDefault (getField p "category") defaultCategory
    status := toProductStatus (getField p "status")
    sort_order := match jsToNum (getField p "sort_order") with
                  | .fin q => q
                  | _ => 0
    artist_name := jsStrOrDefault (getField p "artist_name") ""
    artist_role := jsStrOrDefault (getField p "artist_role") ""
    artist_image_url := jsStrOrDefault (getField p "artist_image_url") ""
    artist_bio := jsStrOrDefault (getField p "artist_bio") ""
    image_url := jsStrOrDefault (getField p "image_url") ""
    media_images := parseMediaImages (getField p "media_images")
    model_url := jsStrOrDefault (getField p "model_url") ""
    theme := jsStrOrDefault (getField p "theme") ""
    color := jsStrOrDefault (getField p "color") ""
    size := jsStrOrDefault (getField p "size") ""
    tag := jsStrOrDefault (getField p "tag") ""
    kicker := jsStrOrDefault (getField p "kicker") ""
    material := jsStrOrDefault (getField p "material") ""
    dimensions := jsStrOrDefault (getField p "dimensions") ""
    store_name := jsStrOrDefault (getField p "store_name") ""
    store_lng := toNumberOrNull (getField p "store_lng")
    store_lat := toNumberOrNull (getField p "store_lat")
    medium := jsStrOrDefault (getField p "medium") ""
    period := jsStrOrDefault (getField p "period") ""
    era := jsStrOrDefault (getField p "era") ""
    year := toNumberOrNull (getField p "year")
    rating := toNumberOrNull (getField p "rating")
    rating_count := jsStrOrDefault (getField p "rating_count") ""
    base_price := toNumberOrNull (getField p "base_price")
    owner_user_id := toNumberOrNull (getField p "owner_user_id")
    created_at := jsStrOrDefault (getField p "created_at") now
    updated_at := jsStrOrDefault (getField p "updated_at") now
    extra_fields := extractProductExtraFields p }

def optNumToJs : Option ℚ → JsVal
  | some q => .num (.fin q)
  | none => .null

/-- The JS object a normalized product is at runtime (and after a
`JSON.stringify`/`JSON.parse` round trip): canonical keys in the literal
order of `normalizeProduct`. -/
def Product.toRaw (p : Product) : JsVal :=
  .obj [
    ("id", .str p.id),
    ("name", .str p.name),
    ("gallery_type", .str p.gallery_type),
    ("category", .str p.category),
    ("status", .str p.status),
    ("sort_order", .num (.fin p.sort_order)),
    ("artist_name", .str p.artist_name),
    ("artist_role", .str p.artist_role),
    ("artist_image_url", .str p.artist_image_url),
    ("artist_bio", .str p.artist_bio),
    ("image_url", .str p.image_url),
    ("media_images", .arr (p.media_images.map JsVal.str)),
    ("model_url", .str p.model_url),
    ("theme", .str p.theme),
    ("color", .str p.color),
    ("size", .str p.size),
    ("tag", .str p.tag),
    ("kicker", .str p.kicker),
    ("material", .str p.material),
    ("dimensions", .str p.dimensions),
    ("store_name", .str p.store_name),
    ("store_lng", optNumToJs p.store_lng),
    ("store_lat", optNumToJs p.store_lat),
    ("medium", .str p.medium),
    ("period", .str p.period),
    ("era", .str p.era),
    ("year", optNumToJs p.year),
    ("rating", optNumToJs p.rating),
    ("rating_count", .str p.rating_count),
    ("base_price", optNumToJs p.base_price),
    ("owner_user_id", optNumToJs p.owner_user_id),
    ("created_at", .str p.created_at),
    ("updated_at", .str p.updated_at),
    ("extra_fields", .obj p.extra_fields)]

example :
    (normalizeProduct (.obj [("id", .str "x"), ("gallery_type", .str "FURNITURE ")]) 0 7 "T").gallery_type
      = "designs" := by
  simp [normalizeProduct, List.find?, toGalleryType, jsStrOrDefault]

example :
    (normalizeProduct (.obj [("year", .str "1890")]) 0 7 "T").year = some 1890 := by
  simp [normalizeProduct, List.find?, toNumberOrNull]

example :
    (normalizeProduct (.obj [("id", .arr [])]) 0 7 "T").id = "" := by
  simp [normalizeProduct, List.find?, jsStrOrDefault]

example :
    (normalizeProduct (.obj []) 2 7 "T").id = "prod-7-2" := by
  simp [normalizeProduct, List.find?, jsStrOrDefault]
  decide

example :
    (normalizeProduct (.obj [("foo", .str "bar"), ("extra_fields", .obj [("baz", .num (.fin 2))])]) 0 7 "T").extra_fields
      = [("foo", .str "bar"), ("baz", .num (.fin 2))] := by
  simp [normalizeProduct, List.find?, List.filter, extractProductExtraFields]

/-! ### Well-formedness of JS values: every object level has distinct keys.
JSON-parsed data always satisfies this; `deepMerge`-produced objects do
too, which is what makes re-normalization stable. -/

@[simp] def keysUniq : List String → Bool
  | [] => true
  | k :: rest => !(rest.contains k) && keysUniq rest

def fieldKeys {α : Type} (fs : List (String × α)) : List String :=
  fs.map Prod.fst

mutual

@[simp] def NodupDeep : JsVal → Bool
  | .arr es => NodupDeepList es
  | .obj fs => keysUniq (fieldKeys fs) && NodupDeepFields fs
  | _ => true
termination_by v => 2 * sizeOf v

@[simp] def NodupDeepList : List JsVal → Bool
  | [] => true
  | v :: rest => NodupDeep v && NodupDeepList rest
termination_by l => 2 * sizeOf l + 1

@[simp] def NodupDeepFields : List (String × JsVal) → Bool
  | [] => true
  | (_, v) :: rest => NodupDeep v && NodupDeepFields rest
termination_by fs => 2 * sizeOf fs + 1

end

theorem keysUniq_iff_nodup (l : List String) : keysUniq l = true ↔ l.Nodup := by
  induction l with
  | nil => simp
  | cons k rest ih =>
    simp only [keysUniq, Bool.and_eq_true, Bool.not_eq_true', List.nodup_cons, ← ih]
    rw [show (rest.contains k) = (List.elem k rest) from rfl]
    rw [Bool.eq_false_iff]
    constructor
    · rintro ⟨h1, h2⟩
      exact ⟨fun hk => h1 (List.elem_iff.mpr hk), h2⟩
    · rintro ⟨h1, h2⟩
      exact ⟨fun hk => h1 (List.elem_iff.mp hk), h2⟩

theorem natFromDigits_append (l : List Char) (c : Char) :
    natFromDigits (l ++ [c]) = 10 * natFromDigits l + (c.toNat - 48) := by
  simp [natFromDigits, List.foldl_append, Nat.mul_comm]

theorem jsDigitChar_toNat {d : ℕ} (h : d < 10) : (jsDigitChar d).toNat = 48 + d := by
  interval_cases d <;> decide

theorem natToStrGo_roundtrip : ∀ f n, n ≤ f → natFromDigits (natToStrGo f n) = n := by
  intro f
  induction f with
  | zero =>
    intro n hn
    interval_cases n
    decide
  | succ f ih =>
    intro n hn
    by_cases h : n < 10
    · simp only [natToStrGo, if_pos h, natFromDigits, List.foldl]
      rw [jsDigitChar_toNat h]
      omega
    · have hdiv : n / 10 ≤ f := by omega
      simp only [natToStrGo, if_neg h]
      rw [natFromDigits_append, ih _ hdiv, jsDigitChar_toNat (Nat.mod_lt n (by norm_num))]
      omega

theorem natToStr_injective : Function.Injective natToStr := by
  intro a b h
  have ha := natToStrGo_roundtrip a a le_rfl
  have hb := natToStrGo_roundtrip b b le_rfl
  have : natToStrGo a a = natToStrGo b b := congrArg String.data h
  rw [this] at ha
  omega

theorem mem_fieldKeys_idxMapFrom {α : Type} (g : ℕ → α → JsVal) :
    ∀ (l : List α) (i : ℕ) (s : String),
      s ∈ fieldKeys (idxMapFrom (fun j a => (natToStr j, g j a)) i l) →
      ∃ j, i ≤ j ∧ s = natToStr j := by
  intro l
  induction l with
  | nil => simp [fieldKeys]
  | cons a rest ih =>
    intro i s hs
    simp only [idxMapFrom, fieldKeys, List.map_cons, List.mem_cons] at hs
    rcases hs with h | h
    · exact ⟨i, le_rfl, h⟩
    · obtain ⟨j, hj, hsj⟩ := ih (i + 1) s h
      exact ⟨j, by omega, hsj⟩

theorem keysUniq_idxMapFrom {α : Type} (g : ℕ → α → JsVal) :
    ∀ (l : List α) (i : ℕ),
      keysUniq (fieldKeys (idxMapFrom (fun j a => (natToStr j, g j a)) i l)) = true := by
  intro l
  induction l with
  | nil => intro i; simp [fieldKeys]
  | cons a rest ih =>
    intro i
    simp only [idxMapFrom, fieldKeys, List.map_cons, keysUniq, Bool.and_eq_true,
      Bool.not_eq_true']
    refine ⟨?_, ih (i + 1)⟩
    rw [Bool.eq_false_iff]
    intro hc
    rw [List.contains_iff_exists_mem_beq] at hc
    obtain ⟨s, hs, hbeq⟩ := hc
    have hseq : s = natToStr i := (beq_iff_eq.mp hbeq).symm
    obtain ⟨j, hj, hsj⟩ := mem_fieldKeys_idxMapFrom g rest (i + 1) s hs
    rw [hseq] at hsj
    have : i = j := natToStr_injective hsj
    omega

theorem fieldKeys_setKey {α : Type} (l : List (String × α)) (k : String) (v : α) :
    fieldKeys (setKey l k v) =
      if k ∈ fieldKeys l then fieldKeys l else fieldKeys l ++ [k] := by
  induction l with
  | nil => simp [fieldKeys, setKey]
  | cons f rest ih =>
    obtain ⟨k', v'⟩ := f
    by_cases h : k' = k
    · subst h
      simp [setKey, fieldKeys]
    · simp only [setKey, if_neg h]
      show k' :: fieldKeys (setKey rest k v) = _
      rw [ih]
      by_cases hm : k ∈ fieldKeys rest
      · have hc : k ∈ fieldKeys ((k', v') :: rest) := by
          show k ∈ k' :: fieldKeys rest
          exact List.mem_cons_of_mem _ hm
        rw [if_pos hm, if_pos hc]
        rfl
      · have hc : k ∉ fieldKeys ((k', v') :: rest) := by
          show k ∉ k' :: fieldKeys rest
          intro hx
          rcases List.mem_cons.mp hx with hx | hx
          exacts [h hx.symm, hm hx]
        rw [if_neg hm, if_neg hc]
        rfl

theorem setKey_eq_append {α : Type} (l : List (String × α)) (k : String) (v : α)
    (h : k ∉ fieldKeys l) : setKey l k v = l ++ [(k, v)] := by
  induction l with
  | nil => simp [setKey]
  | cons f rest ih =>
    obtain ⟨k', v'⟩ := f
    simp only [fieldKeys, List.map_cons, List.mem_cons] at h
    push_neg at h
    simp only [setKey, if_neg (fun hh : k' = k => h.1 hh.symm), List.cons_append]
    rw [ih h.2]

theorem getKey?_eq_none {α : Type} (l : List (String × α)) (k : String)
    (h : k ∉ fieldKeys l) : getKey? l k = none := by
  induction l with
  | nil => simp [getKey?]
  | cons f rest ih =>
    obtain ⟨k', v'⟩ := f
    simp only [fieldKeys, List.map_cons, List.mem_cons] at h
    push_neg at h
    simp only [getKey?, if_neg (fun hh : k' = k => h.1 hh.symm)]
    exact ih h.2

theorem keysUniq_setKey {α : Type} (l : List (String × α)) (k : String) (v : α)
    (h : keysUniq (fieldKeys l) = true) :
    keysUniq (fieldKeys (setKey l k v)) = true := by
  rw [keysUniq_iff_nodup] at h ⊢
  rw [fieldKeys_setKey]
  by_cases hm : k ∈ fieldKeys l
  · simpa [hm] using h
  · rw [if_neg hm]
    exact h.append (List.nodup_singleton k)
      (fun a ha hx => hm ((List.mem_singleton.mp hx) ▸ ha))

theorem NodupDeepFields_append (l m : List (String × JsVal)) :
    NodupDeepFields (l ++ m) = (NodupDeepFields l && NodupDeepFields m) := by
  induction l with
  | nil => simp
  | cons f rest ih =>
    obtain ⟨k', v'⟩ := f
    simp [ih, Bool.and_assoc]

theorem NodupDeepFields_setKey (l : List (String × JsVal)) (k : String) (v : JsVal)
    (hl : NodupDeepFields l = true) (hv : NodupDeep v = true) :
    NodupDeepFields (setKey l k v) = true := by
  induction l with
  | nil => simp [setKey, hv]
  | cons f rest ih =>
    obtain ⟨k', v'⟩ := f
    simp only [NodupDeepFields, Bool.and_eq_true] at hl
    by_cases h : k' = k
    · subst h
      simp only [setKey, if_pos rfl, NodupDeepFields]
      simp [hv, hl.2]
    · simp only [setKey, if_neg h, NodupDeepFields, Bool.and_eq_true]
      exact ⟨hl.1, ih hl.2⟩

theorem getKey?_nodup (l : List (String × JsVal)) (k : String) (v : JsVal)
    (hl : NodupDeepFields l = true) (h : getKey? l k = some v) :
    NodupDeep v = true := by
  induction l with
  | nil => simp [getKey?] at h
  | cons f rest ih =>
    obtain ⟨k', v'⟩ := f
    simp only [NodupDeepFields, Bool.and_eq_true] at hl
    by_cases hk : k' = k
    · simp only [getKey?, if_pos hk, Option.some_inj] at h
      exact h ▸ hl.1
    · simp only [getKey?, if_neg hk] at h
      exact ih hl.2 h

theorem NodupDeepFields_idxMapFrom {α : Type} (g : α → JsVal) (l : List α)
    (h : ∀ a ∈ l, NodupDeep (g a) = true) :
    ∀ i, NodupDeepFields (idxMapFrom (fun j a => (natToStr j, g a)) i l) = true := by
  induction l with
  | nil => intro i; simp
  | cons a rest ih =>
    intro i
    simp only [idxMapFrom, NodupDeepFields, Bool.and_eq_true]
    exact ⟨h a (List.mem_cons_self a rest),
      ih (fun b hb => h b (List.mem_cons_of_mem a hb)) (i + 1)⟩

/-- The spread of a value whose object levels are nodup-keyed is itself a
nodup-keyed field list with well-formed values. -/
theorem jsSpreadFields_ok (t : JsVal) (ht : NodupDeep t = true) :
    keysUniq (fieldKeys (jsSpreadFields t)) = true ∧
      NodupDeepFields (jsSpreadFields t) = true := by
  cases t with
  | obj fs =>
    simp only [NodupDeep, Bool.and_eq_true] at ht
    simpa using ht
  | arr es =>
    simp only [NodupDeep] at ht
    constructor
    · exact keysUniq_idxMapFrom (fun _ e => e) es 0
    · refine NodupDeepFields_idxMapFrom (fun e => e) es ?_ 0
      intro a ha
      induction es with
      | nil => simp at ha
      | cons e rest ih =>
        simp only [NodupDeepList, Bool.and_eq_true] at ht
        rcases List.mem_cons.mp ha with h | h
        · exact h ▸ ht.1
        · exact ih ht.2 h
  | str s =>
    constructor
    · exact keysUniq_idxMapFrom (fun _ c => JsVal.str ⟨[c]⟩) s.data 0
    · exact NodupDeepFields_idxMapFrom (fun c => JsVal.str ⟨[c]⟩) s.data
        (fun a _ => by simp) 0
  | undef => simp [fieldKeys]
  | null => simp [fieldKeys]
  | bool b => simp [fieldKeys]
  | num n => simp [fieldKeys]

theorem nodupPack : ∀ n : ℕ,
    (∀ acc fs, sizeOf fs ≤ n → keysUniq (fieldKeys acc) = true →
      NodupDeepFields acc = true →
      keysUniq (fieldKeys (mergeEntries acc fs)) = true ∧
        NodupDeepFields (mergeEntries acc fs) = true) ∧
    (∀ t s, sizeOf s ≤ n → NodupDeep t = true → NodupDeep (deepMerge t s) = true) ∧
    (∀ v, sizeOf v ≤ n → NodupDeep (cloneItem v) = true) ∧
    (∀ l, sizeOf l ≤ n → NodupDeepList (cloneItems l) = true) := by
  intro n
  induction n using Nat.strong_induction_on with
  | _ n IH =>
  have h4 : ∀ acc fs, sizeOf fs ≤ n → keysUniq (fieldKeys acc) = true →
      NodupDeepFields acc = true →
      keysUniq (fieldKeys (mergeEntries acc fs)) = true ∧
        NodupDeepFields (mergeEntries acc fs) = true := by
    intro acc fs hsz hu hf
    match fs with
    | [] => simpa [mergeEntries] using ⟨hu, hf⟩
    | (k, v) :: rest =>
      have hsz' : sizeOf rest < n := by
        simp at hsz
        omega
      have hrec := (IH (sizeOf rest) hsz').1
      have hassign : keysUniq (fieldKeys (assignEntry acc k v)) = true ∧
          NodupDeepFields (assignEntry acc k v) = true := by
        have hvsz : sizeOf v < n := by
          simp at hsz
          omega
        cases v with
        | arr es =>
          have hes : sizeOf es < n := by
            simp at hvsz
            omega
          have hclone := (IH (sizeOf es) hes).2.2.2 es le_rfl
          simp only [assignEntry]
          refine ⟨keysUniq_setKey _ _ _ hu, NodupDeepFields_setKey _ _ _ hf ?_⟩
          simpa using hclone
        | obj fs' =>
          have hbase : NodupDeep
              (if ((getKey? acc k).getD JsVal.undef).truthy = true
               then (getKey? acc k).getD JsVal.undef else JsVal.obj []) = true := by
            by_cases hT : ((getKey? acc k).getD JsVal.undef).truthy = true
            · rw [if_pos hT]
              cases hg : getKey? acc k with
              | none => simp [hg]
              | some w => simpa [hg] using getKey?_nodup acc k w hf hg
            · rw [if_neg hT]
              simp [fieldKeys]
          have hmrg := (IH (sizeOf (JsVal.obj fs')) hvsz).2.1 _ (JsVal.obj fs') le_rfl hbase
          simp only [assignEntry]
          exact ⟨keysUniq_setKey _ _ _ hu, NodupDeepFields_setKey _ _ _ hf hmrg⟩
        | undef =>
          simp only [assignEntry]
          exact ⟨keysUniq_setKey _ _ _ hu, NodupDeepFields_setKey _ _ _ hf (by simp)⟩
        | null =>
          simp only [assignEntry]
          exact ⟨keysUniq_setKey _ _ _ hu, NodupDeepFields_setKey _ _ _ hf (by simp)⟩
        | bool b =>
          simp only [assignEntry]
          exact ⟨keysUniq_setKey _ _ _ hu, NodupDeepFields_setKey _ _ _ hf (by simp)⟩
        | num m =>
          simp only [assignEntry]
          exact ⟨keysUniq_setKey _ _ _ hu, NodupDeepFields_setKey _ _ _ hf (by simp)⟩
        | str s =>
          simp only [assignEntry]
          exact ⟨keysUniq_setKey _ _ _ hu, NodupDeepFields_setKey _ _ _ hf (by simp)⟩
      simpa [mergeEntries] using hrec (assignEntry acc k v) rest le_rfl hassign.1 hassign.2
  have h3 : ∀ t s, sizeOf s ≤ n → NodupDeep t = true → NodupDeep (deepMerge t s) = true := by
    intro t s hsz ht
    cases s with
    | arr es =>
      have hes : sizeOf es < n := by
        simp at hsz
        omega
      have := (IH (sizeOf es) hes).2.2.2 es le_rfl
      cases t <;> simpa [deepMerge] using this
    | obj fs =>
      have hfs : sizeOf fs < n := by
        simp at hsz
        omega
      cases t with
      | arr es => simp [deepMerge]
      | obj tf =>
        have hsp := jsSpreadFields_ok (.obj tf) ht
        have := (IH (sizeOf fs) hfs).1 (jsSpreadFields (.obj tf)) fs le_rfl
          (by simpa using hsp.1) (by simpa using hsp.2)
        simpa [deepMerge] using this
      | str s =>
        have hsp := jsSpreadFields_ok (.str s) (by simp)
        have := (IH (sizeOf fs) hfs).1 (jsSpreadFields (.str s)) fs le_rfl
          (by simpa using hsp.1) (by simpa using hsp.2)
        simpa [deepMerge] using this
      | undef =>
        have := (IH (sizeOf fs) hfs).1 [] fs le_rfl (by simp [fieldKeys]) (by simp)
        simpa [deepMerge, jsSpreadFields] using this
      | null =>
        have := (IH (sizeOf fs) hfs).1 [] fs le_rfl (by simp [fieldKeys]) (by simp)
        simpa [deepMerge, jsSpreadFields] using this
      | bool b =>
        have := (IH (sizeOf fs) hfs).1 [] fs le_rfl (by simp [fieldKeys]) (by simp)
        simpa [deepMerge, jsSpreadFields] using this
      | num m =>
        have := (IH (sizeOf fs) hfs).1 [] fs le_rfl (by simp [fieldKeys]) (by simp)
        simpa [deepMerge, jsSpreadFields] using this
    | undef => simpa [deepMerge] using ht
    | null => simpa [deepMerge] using ht
    | bool b => simpa [deepMerge] using ht
    | num m => simpa [deepMerge] using ht
    | str s => simpa [deepMerge] using ht
  have h1 : ∀ v, sizeOf v ≤ n → NodupDeep (cloneItem v) = true := by
    intro v hsz
    cases v with
    | arr es =>
      have hes : sizeOf es < n := by
        simp at hsz
        omega
      simpa [cloneItem] using (IH (sizeOf es) hes).2.2.2 es le_rfl
    | obj fs =>
      have := h3 (.obj []) (.obj fs) hsz (by simp [fieldKeys])
      simpa [cloneItem] using this
    | undef => simp [cloneItem]
    | null => simp [cloneItem]
    | bool b => simp [cloneItem]
    | num m => simp [cloneItem]
    | str s => simp [cloneItem]
  have h2 : ∀ l, sizeOf l ≤ n → NodupDeepList (cloneItems l) = true := by
    intro l hsz
    match l with
    | [] => simp [cloneItems]
    | item :: rest =>
      have hi : sizeOf item ≤ n := by
        simp at hsz
        omega
      have hr : sizeOf rest < n := by
        simp at hsz
        omega
      have := (IH (sizeOf rest) hr).2.2.2 rest le_rfl
      simpa [cloneItems] using ⟨h1 item hi, this⟩
  exact ⟨h4, h3, h1, h2⟩

theorem clonePack : ∀ n : ℕ,
    (∀ acc fs, sizeOf fs ≤ n → (∀ k ∈ fieldKeys fs, k ∉ fieldKeys acc) →
      keysUniq (fieldKeys fs) = true → NodupDeepFields fs = true →
      mergeEntries acc fs = acc ++ fs) ∧
    (∀ v, sizeOf v ≤ n → NodupDeep v = true → cloneItem v = v) ∧
    (∀ l, sizeOf l ≤ n → NodupDeepList l = true → cloneItems l = l) := by
  intro n
  induction n using Nat.strong_induction_on with
  | _ n IH =>
  have h3 : ∀ acc fs, sizeOf fs ≤ n → (∀ k ∈ fieldKeys fs, k ∉ fieldKeys acc) →
      keysUniq (fieldKeys fs) = true → NodupDeepFields fs = true →
      mergeEntries acc fs = acc ++ fs := by
    intro acc fs hsz hdisj hu hf
    match fs with
    | [] => simp [mergeEntries]
    | (k, v) :: rest =>
      have hszr : sizeOf rest < n := by
        simp at hsz
        omega
      have hvsz : sizeOf v < n := by
        simp at hsz
        omega
      have hknotin : k ∉ fieldKeys acc :=
        hdisj k (by simp [fieldKeys])
      have hrestdisj : ∀ k2 ∈ fieldKeys rest, k2 ∉ fieldKeys (acc ++ [(k, v)]) := by
        intro k2 hk2
        have h1 : k2 ∉ fieldKeys acc :=
          hdisj k2 (by simp only [fieldKeys, List.map_cons]; exact List.mem_cons_of_mem _ hk2)
        have h2 : k2 ≠ k := by
          simp only [fieldKeys, List.map_cons, keysUniq, Bool.and_eq_true,
            Bool.not_eq_true'] at hu
          intro hEq
          subst hEq
          have := hu.1
          rw [Bool.eq_false_iff] at this
          exact this (List.elem_iff.mpr hk2)
        simp only [fieldKeys, List.map_append, List.map_cons, List.map_nil]
        intro hmem
        rcases List.mem_append.mp hmem with h | h
        · exact h1 h
        · simp at h
          exact h2 h
      have hurest : keysUniq (fieldKeys rest) = true := by
        simp only [fieldKeys, List.map_cons, keysUniq, Bool.and_eq_true] at hu
        exact hu.2
      have hfrest : NodupDeepFields rest = true := by
        simp only [NodupDeepFields, Bool.and_eq_true] at hf
        exact hf.2
      have hfv : NodupDeep v = true := by
        simp only [NodupDeepFields, Bool.and_eq_true] at hf
        exact hf.1
      have hassign : assignEntry acc k v = acc ++ [(k, v)] := by
        cases v with
        | arr es =>
          have hes : sizeOf es < n := by
            simp at hvsz
            omega
          have : cloneItems es = es :=
            (IH (sizeOf es) hes).2.2 es le_rfl (by simpa using hfv)
          simp only [assignEntry, this]
          exact setKey_eq_append _ _ _ hknotin
        | obj fs' =>
          have hfs' : sizeOf fs' < n := by
            simp at hvsz
            omega
          have hg : getKey? acc k = none := getKey?_eq_none _ _ hknotin
          have hObjOk : keysUniq (fieldKeys fs') = true ∧ NodupDeepFields fs' = true := by
            simp only [NodupDeep, Bool.and_eq_true] at hfv
            exact hfv
          have hmrg : mergeEntries [] fs' = fs' := by
            have := (IH (sizeOf fs') hfs').1 [] fs' le_rfl
              (by intro k2 _; simp [fieldKeys]) hObjOk.1 hObjOk.2
            simpa using this
          simp only [assignEntry, hg, Option.getD_none, JsVal.truthy, if_neg]
          rw [if_neg (by simp)]
          simp only [deepMerge, jsSpreadFields, hmrg]
          exact setKey_eq_append _ _ _ hknotin
        | undef =>
          simp only [assignEntry]
          exact setKey_eq_append _ _ _ hknotin
        | null =>
          simp only [assignEntry]
          exact setKey_eq_append _ _ _ hknotin
        | bool b =>
          simp only [assignEntry]
          exact setKey_eq_append _ _ _ hknotin
        | num m =>
          simp only [assignEntry]
          exact setKey_eq_append _ _ _ hknotin
        | str s =>
          simp only [assignEntry]
          exact setKey_eq_append _ _ _ hknotin
      calc mergeEntries acc ((k, v) :: rest)
          = mergeEntries (assignEntry acc k v) rest := by simp [mergeEntries]
        _ = mergeEntries (acc ++ [(k, v)]) rest := by rw [hassign]
        _ = (acc ++ [(k, v)]) ++ rest :=
            (IH (sizeOf rest) hszr).1 _ rest le_rfl hrestdisj hurest hfrest
        _ = acc ++ ((k, v) :: rest) := by simp

  have h1 : ∀ v, sizeOf v ≤ n → NodupDeep v = true → cloneItem v = v := by
    intro v hsz hv
    cases v with
    | arr es =>
      have hes : sizeOf es < n := by
        simp at hsz
        omega
      have : cloneItems es = es := (IH (sizeOf es) hes).2.2 es le_rfl (by simpa using hv)
      simp [cloneItem, this]
    | obj fs =>
      have hfs : sizeOf fs < n := by
        simp at hsz
        omega
      have hObjOk : keysUniq (fieldKeys fs) = true ∧ NodupDeepFields fs = true := by
        simp only [NodupDeep, Bool.and_eq_true] at hv
        exact hv
      have hmrg : mergeEntries [] fs = fs := by
        have := (IH (sizeOf fs) hfs).1 [] fs le_rfl
          (by intro k2 _; simp [fieldKeys]) hObjOk.1 hObjOk.2
        simpa using this
      simp [cloneItem, deepMerge, jsSpreadFields, hmrg]
    | undef => simp [cloneItem]
    | null => simp [cloneItem]
    | bool b => simp [cloneItem]
    | num m => simp [cloneItem]
    | str s => simp [cloneItem]
  have h2 : ∀ l, sizeOf l ≤ n → NodupDeepList l = true → cloneItems l = l := by
    intro l hsz hl
    match l with
    | [] => simp [cloneItems]
    | item :: rest =>
      have hi : sizeOf item ≤ n := by
        simp at hsz
        omega
      have hr : sizeOf rest < n := by
        simp at hsz
        omega
      simp only [NodupDeepList, Bool.and_eq_true] at hl
      have hitem := h1 item hi hl.1
      have hrest := (IH (sizeOf rest) hr).2.2 rest le_rfl hl.2
      simp [cloneItems, hitem, hrest]
  exact ⟨h3, h1, h2⟩

/-- `deepMerge`-cloning a nodup-keyed object's fields is the identity. -/
theorem mergeEntries_empty_of_nodup (fs : List (String × JsVal))
    (hu : keysUniq (fieldKeys fs) = true) (hf : NodupDeepFields fs = true) :
    mergeEntries [] fs = fs := by
  have := (clonePack (sizeOf fs)).1 [] fs le_rfl (by intro k _; simp [fieldKeys]) hu hf
  simpa using this

theorem mergeEntries_uniq (acc fs : List (String × JsVal))
    (hu : keysUniq (fieldKeys acc) = true) (hf : NodupDeepFields acc = true) :
    keysUniq (fieldKeys (mergeEntries acc fs)) = true ∧
      NodupDeepFields (mergeEntries acc fs) = true :=
  (nodupPack (sizeOf fs)).1 acc fs le_rfl hu hf

/-- The extra-fields map produced by `extractProductExtraFields` always
has distinct keys at every object level. -/
theorem extractProductExtraFields_ok (v : JsVal) :
    keysUniq (fieldKeys (extractProductExtraFields v)) = true ∧
      NodupDeepFields (extractProductExtraFields v) = true := by
  simp only [extractProductExtraFields]
  refine mergeEntries_uniq _ _ ?_ ?_
  · exact (mergeEntries_uniq [] _ (by simp [fieldKeys]) (by simp)).1
  · exact (mergeEntries_uniq [] _ (by simp [fieldKeys]) (by simp)).2

attribute [ext] Product

theorem jsStrOrDefault_str (s d : String) :
    jsStrOrDefault (.str s) d = if s = "" then d else s := by
  by_cases h : s = "" <;> simp [jsStrOrDefault, h]

theorem toGalleryType_mem (g : String) (h : g ∈ GALLERY_TYPES) :
    toGalleryType (.str g) = g := by
  fin_cases h <;> simp [toGalleryType, jsStrOrDefault]

theorem toProductStatus_mem (st : String) (h : st ∈ PRODUCT_STATUSES) :
    toProductStatus (.str st) = st := by
  fin_cases h <;> simp [toProductStatus, jsStrOrDefault]

theorem toNumberOrNull_optNum (o : Option ℚ) : toNumberOrNull (optNumToJs o) = o := by
  cases o <;> simp [toNumberOrNull, optNumToJs]

theorem jsStrOrDefault_str_empty (s : String) : jsStrOrDefault (.str s) "" = s := by
  by_cases h : s = "" <;> simp [jsStrOrDefault, h]

theorem parseMediaImages_strs (l : List String)
    (h : ∀ s ∈ l, jsTrim s = s ∧ s ≠ "") :
    parseMediaImages (.arr (l.map JsVal.str)) = l := by
  induction l with
  | nil => simp [parseMediaImages]
  | cons s rest ih =>
    have hs := h s (List.mem_cons_self s rest)
    have htail := ih (fun a ha => h a (List.mem_cons_of_mem s ha))
    simp only [parseMediaImages] at htail ⊢
    rw [List.map_cons, List.map_cons, List.filter_cons, jsStrOrDefault_str_empty, hs.1,
      if_pos (by simp [hs.2]), htail]

theorem extractProductExtraFields_toRaw (p : Product)
    (hu : keysUniq (fieldKeys p.extra_fields) = true)
    (hf : NodupDeepFields p.extra_fields = true) :
    extractProductExtraFields p.toRaw = p.extra_fields := by
  simp only [extractProductExtraFields, Product.toRaw]
  rw [show (mergeEntries (mergeEntries [] (List.filter _ _)) _) = _ from rfl]
  norm_num [getKey?, List.filter]
  exact mergeEntries_empty_of_nodup p.extra_fields hu hf

/-- Normalizing the runtime object of a canonical product record gives the
record back, except that empty timestamps are stamped with `now`. -/
theorem normalizeProduct_toRaw (p : Product)
    (hgal : p.gallery_type ∈ GALLERY_TYPES) (hstat : p.status ∈ PRODUCT_STATUSES)
    (hmedia : ∀ s ∈ p.media_images, jsTrim s = s ∧ s ≠ "")
    (hu : keysUniq (fieldKeys p.extra_fields) = true)
    (hf : NodupDeepFields p.extra_fields = true)
    (hid : p.id ≠ "") (hname : p.name ≠ "") (hcat : p.category ≠ "")
    (i t : ℕ) (now : String) :
    normalizeProduct p.toRaw i t now =
      { p with
        created_at := if p.created_at = "" then now else p.created_at,
        updated_at := if p.updated_at = "" then now else p.updated_at } := by
  have hex : extractProductExtraFields p.toRaw = p.extra_fields :=
    extractProductExtraFields_toRaw p hu hf
  simp only [normalizeProduct, Product.toRaw] at hex ⊢
  simp [getField, List.find?]
  simp only [hex]
  simp [jsStrOrDefault_str, jsStrOrDefault_str_empty, hid, hname, hcat,
    toGalleryType_mem _ hgal, toProductStatus_mem _ hstat,
    parseMediaImages_strs _ hmedia, toNumberOrNull_optNum, jsToNum]
  repeat' apply And.intro
  all_goals exact fun h => h.symm

theorem dropWhile_head_false {p : Char → Bool} {c : Char} {t : List Char}
    (h : List.dropWhile p (c :: t) = c :: t) : p c = false := by
  by_cases hc : p c = true
  · rw [List.dropWhile_cons_of_pos hc] at h
    have hle : (List.dropWhile p t).length ≤ t.length := by
      have hsub := List.dropWhile_sublist (p := p) (l := t)
      exact hsub.length_le
    have heq : (List.dropWhile p t).length = (c :: t).length := by rw [h]
    simp at heq
    omega
  · simpa using hc

theorem dropWhile_rdropWhile_self {p : Char → Bool} (l : List Char)
    (hl : List.dropWhile p l = l) :
    List.dropWhile p (List.rdropWhile p l) = List.rdropWhile p l := by
  induction l using List.reverseRecOn with
  | nil => simp
  | append_singleton xs x ih =>
    by_cases hx : p x = true
    · rw [List.rdropWhile_concat_pos _ _ _ hx]
      match xs, hl with
      | [], _ => simp
      | c :: t, hl =>
        have hc : p c = false := by
          apply dropWhile_head_false (t := t ++ [x])
          simpa using hl
        exact ih (by simp [List.dropWhile_cons_of_neg, hc])
    · rw [List.rdropWhile_concat_neg _ _ _ (by simpa using hx)]
      exact hl

theorem dropRightWhile_eq_rdropWhile (p : Char → Bool) (l : List Char) :
    dropRightWhile p l = List.rdropWhile p l := rfl

theorem jsTrim_idem (s : String) : jsTrim (jsTrim s) = jsTrim s := by
  show (⟨dropRightWhile isJsSpace (List.dropWhile isJsSpace
      (dropRightWhile isJsSpace (List.dropWhile isJsSpace s.data)))⟩ : String) = _
  rw [dropRightWhile_eq_rdropWhile, dropRightWhile_eq_rdropWhile,
    dropWhile_rdropWhile_self _ (List.dropWhile_idempotent _ _),
    List.rdropWhile_idempotent]
  rfl

theorem parseMediaImages_ok (v : JsVal) :
    ∀ s ∈ parseMediaImages v, jsTrim s = s ∧ s ≠ "" := by
  intro s hs
  cases v with
  | arr items =>
    simp only [parseMediaImages, List.mem_filter, List.mem_map] at hs
    obtain ⟨⟨x, _, hx⟩, hne⟩ := hs
    exact ⟨hx ▸ jsTrim_idem _, by simpa using hne⟩
  | str str0 =>
    simp only [parseMediaImages, List.mem_filter, List.mem_map] at hs
    obtain ⟨⟨x, _, hx⟩, hne⟩ := hs
    exact ⟨hx ▸ jsTrim_idem _, by simpa using hne⟩
  | undef => simp [parseMediaImages] at hs
  | null => simp [parseMediaImages] at hs
  | bool b => simp [parseMediaImages] at hs
  | num n => simp [parseMediaImages] at hs
  | obj fs => simp [parseMediaImages] at hs

theorem toGalleryType_output_mem (v : JsVal) : toGalleryType v ∈ GALLERY_TYPES := by
  simp only [toGalleryType]
  split
  · simp [GALLERY_TYPES]
  · split
    · next h =>
      rwa [← List.elem_iff]
    · simp [GALLERY_TYPES]

theorem toProductStatus_output_mem (v : JsVal) : toProductStatus v ∈ PRODUCT_STATUSES := by
  simp only [toProductStatus]
  split
  · next h => rwa [← List.elem_iff]
  · simp [PRODUCT_STATUSES]

/-- Every `normalizeProduct` output satisfies the canonicity facts that make
re-normalization stable. -/
theorem normalizeProduct_ok (v : JsVal) (i t : ℕ) (now : String) :
    (normalizeProduct v i t now).gallery_type ∈ GALLERY_TYPES ∧
    (normalizeProduct v i t now).status ∈ PRODUCT_STATUSES ∧
    (∀ s ∈ (normalizeProduct v i t now).media_images, jsTrim s = s ∧ s ≠ "") ∧
    keysUniq (fieldKeys (normalizeProduct v i t now).extra_fields) = true ∧
    NodupDeepFields (normalizeProduct v i t now).extra_fields = true := by
  refine ⟨?_, ?_, ?_, ?_, ?_⟩ <;>
    simp only [normalizeProduct]
  · exact toGalleryType_output_mem _
  · exact toProductStatus_output_mem _
  · exact parseMediaImages_ok _
  · exact (extractProductExtraFields_ok _).1
  · exact (extractProductExtraFields_ok _).2

/-- Re-normalizing a normalized product returns it unchanged except for the
timestamps, provided the first pass produced nonempty id, name and
category (always the case except for exotic inputs whose truthy field
values stringify to the empty string). -/
theorem normalizeProduct_restable (y : Product)
    (hy : ∃ v i t now, normalizeProduct v i t now = y)
    (hid : y.id ≠ "") (hname : y.name ≠ "") (hcat : y.category ≠ "")
    (j t2 : ℕ) (n2 : String) :
    normalizeProduct y.toRaw j t2 n2 =
      { y with
        created_at := if y.created_at = "" then n2 else y.created_at,
        updated_at := if y.updated_at = "" then n2 else y.updated_at } := by
  obtain ⟨v, i, t, now, hv⟩ := hy
  have hok := normalizeProduct_ok v i t now
  rw [hv] at hok
  exact normalizeProduct_toRaw y hok.1 hok.2.1 hok.2.2.1 hok.2.2.2.1 hok.2.2.2.2
    hid hname hcat j t2 n2

/-! ### Accounts, submissions and the persistent store -/

/-- A `users` table row (ids and the session counter are JS numbers). -/
structure Account where
  id : ℚ
  name : String
  email : String
  role : String
  slug : String
  status : Option String
  session_version : Option ℚ
deriving Repr, DecidableEq

/-- A `product_submissions` table row joined with its vendor. -/
structure Submission where
  id : ℕ
  vendor_id : ℚ
  product_id : String
  submission_type : String
  snapshot : Product
  base_snapshot : Option Product
  vendor_note : String
  status : String
  rejection_reason : Option String
  created_at : String
  reviewed_at : Option String
  reviewed_by : Option ℚ
deriving Repr

/-- The relational store: the singleton `site_state` row (parsed
`products_json`; `none` = no row yet), the submissions table, and the
users table. -/
structure Db where
  siteRow : Option JsVal
  submissions : List Submission
  nextSubmissionId : ℕ
  users : List Account
deriving Repr

/-- A thrown request error (`err.statusCode`, `err.message`). -/
structure Err where
  statusCode : ℕ
  message : String
deriving Repr, DecidableEq

/-- `a || b`. -/
def jsOr (a b : JsVal) : JsVal := if a.truthy then a else b

/-- `a ?? b`. -/
def jsNullish (a b : JsVal) : JsVal := if a.isNullish then b else a

def mkRawProduct (id name gallery category status : String) (sort : ℚ)
    (artistName artistRole material dims storeName medium period : String)
    (year rating : Option ℚ) (ratingCount : String) (basePrice : Option ℚ)
    (theme color size : String) : JsVal :=
  .obj [
    ("id", .str id), ("name", .str name), ("gallery_type", .str gallery),
    ("category", .str category), ("status", .str status),
    ("sort_order", .num (.fin sort)), ("artist_name", .str artistName),
    ("artist_role", .str artistRole), ("artist_image_url", .str ""),
    ("artist_bio", .str ""), ("image_url", .str ""), ("media_images", .arr []),
    ("model_url", .str ""), ("theme", .str theme), ("color", .str color),
    ("size", .str size), ("tag", .str ""), ("kicker", .str ""),
    ("material", .str material), ("dimensions", .str dims),
    ("store_name", .str storeName), ("store_lng", .null), ("store_lat", .null),
    ("medium", .str medium), ("period", .str period), ("era", .str ""),
    ("year", optNumToJs year), ("rating", optNumToJs rating),
    ("rating_count", .str ratingCount), ("base_price", optNumToJs basePrice),
    ("owner_user_id", .null)]

/-- The `FALLBACK_BOOTSTRAP_PRODUCTS` literal of `server.js`. -/
def FALLBACK_BOOTSTRAP_PRODUCTS : List JsVal :=
  [mkRawProduct "prod-praying-girl" "Praying Girl (19th Century)" "art" "Artwork"
     "active" 1 "Roberto Ferruzzi" "Painter" "Oil on canvas" "12 x 16" ""
     "Oil" "19th Century" (some 1890) (some (24/5)) "50+" (some 153) "" "" "",
   mkRawProduct "prod-arch-cabinet" "Arch Cabinet" "designs" "Cabinets"
     "active" 2 "" "" "Oak wood" "180 x 45 x 95" "FNN Store" "" ""
     none none "" none "" "" "",
   mkRawProduct "prod-hajj-arts" "Hajj and the Arts of Pilgrimage" "books" "Books"
     "active" 3 "" "" "" "" "" "" "" none none "" none "Heritage" "Warm" "Classic"]

/-- `loadLegacyWebsiteProducts` reads a legacy `index.html`; that file is
absent from this repository, so the loader returns the empty list and
`DEFAULT_CATALOG_PRODUCTS` falls back to the bootstrap products. -/
def DEFAULT_CATALOG_PRODUCTS : List JsVal := FALLBACK_BOOTSTRAP_PRODUCTS

/-- Ids of the bootstrap seed products (`AUTO_EXPAND_BOOTSTRAP_IDS`, a set
of three distinct ids, so its `size` is the list length). -/
def AUTO_EXPAND_BOOTSTRAP_IDS : List String :=
  ["prod-praying-girl", "prod-arch-cabinet", "prod-hajj-arts"]

/-- Lower-cased trimmed names of the seed products
(`AUTO_EXPAND_BOOTSTRAP_NAMES`). -/
def AUTO_EXPAND_BOOTSTRAP_NAMES : List String :=
  ["praying girl (19th century)", "arch cabinet", "hajj and the arts of pilgrimage"]

/-- The products half of `normalizeSiteState`: an array re-normalizes every
entry, anything else falls back to the raw default catalog. -/
def normalizeSiteStateProducts (v : JsVal) (t : ℕ) (now : String) : List JsVal :=
  match v with
  | .arr es => idxMapFrom (fun i e => (normalizeProduct e i t now).toRaw) 0 es
  | _ => DEFAULT_CATALOG_PRODUCTS

/-- The `hasOnlyBootstrapSeed` test inside `getSiteState`. -/
def hasOnlyBootstrapSeed (products : List JsVal) : Bool :=
  decide (0 < products.length) &&
  decide (products.length ≤ AUTO_EXPAND_BOOTSTRAP_IDS.length) &&
  products.all fun p =>
    AUTO_EXPAND_BOOTSTRAP_IDS.contains (jsToStr (getField p "id")) ||
    AUTO_EXPAND_BOOTSTRAP_NAMES.contains
      (jsToLower (jsTrim (jsStrOrDefault (getField p "name") "")))

/-- `getSiteState` (products part): self-initializes an absent row, heals a
non-array value to the default catalog, and replaces an empty or
bootstrap-seed-only product list with the freshly normalized default
catalog, persisting the replacement. Returns the product array the caller
sees plus the updated store. -/
def getSiteState (db : Db) (t : ℕ) (now : String) : List JsVal × Db :=
  match db.siteRow with
  | none =>
    (DEFAULT_CATALOG_PRODUCTS,
     { db with siteRow := some (.arr DEFAULT_CATALOG_PRODUCTS) })
  | some v =>
    let products := normalizeSiteStateProducts v t now
    if products.isEmpty || hasOnlyBootstrapSeed products then
      let fresh := idxMapFrom (fun i e => (normalizeProduct e i t now).toRaw) 0
        DEFAULT_CATALOG_PRODUCTS
      (fresh, { db with siteRow := some (.arr fresh) })
    else
      (products, db)

/-- `saveSiteState` (products part): re-normalizes and persists. -/
def saveSiteState (db : Db) (products : JsVal) (t : ℕ) (now : String) : Db :=
  { db with siteRow := some (.arr (normalizeSiteStateProducts products t now)) }

/-- `getProductsArray`: read the site state and normalize every product. -/
def getProductsArray (db : Db) (t : ℕ) (now : String) : List Product × Db :=
  let r := getSiteState db t now
  (idxMapFrom (fun i e => normalizeProduct e i t now) 0 r.1, r.2)

/-- `String(a.localeCompare(b))` modelled as code-point comparison. -/
def strCompareQ (a b : String) : ℚ :=
  match compare a b with
  | .lt => -1
  | .eq => 0
  | .gt => 1

/-- Days since the Unix epoch of a Gregorian civil date
(standard civil-from-days arithmetic). -/
def daysFromCivil (y : ℤ) (m d : ℕ) : ℤ :=
  let y' : ℤ := if m ≤ 2 then y - 1 else y
  let era : ℤ := (if 0 ≤ y' then y' else y' - 399) / 400
  let yoe : ℤ := y' - era * 400
  let doy : ℤ := (153 * (if 2 < m then (m : ℤ) - 3 else (m : ℤ) + 9) + 2) / 5 + d - 1
  let doe : ℤ := yoe * 365 + yoe / 4 - yoe / 100 + doy
  era * 146097 + doe - 719468

def digits2 (a b : Char) : Option ℕ :=
  if isDigitChar a && isDigitChar b then some (natFromDigits [a, b]) else none

def digits3 (a b c : Char) : Option ℕ :=
  if isDigitChar a && isDigitChar b && isDigitChar c then some (natFromDigits [a, b, c])
  else none

def digits4 (a b c d : Char) : Option ℕ :=
  if isDigitChar a && isDigitChar b && isDigitChar c && isDigitChar d then
    some (natFromDigits [a, b, c, d])
  else none

/-- `Date.parse` restricted to the full UTC ISO form
`YYYY-MM-DDTHH:MM:SS.mmmZ` that `new Date().toISOString()` produces —
the only `created_at` format this code base writes; other strings parse
to NaN. -/
def dateParseMs (s : String) : JsNum :=
  match s.data with
  | [y1, y2, y3, y4, '-', m1, m2, '-', d1, d2, 'T',
     h1, h2, ':', mi1, mi2, ':', s1, s2, '.', f1, f2, f3, 'Z'] =>
    match digits4 y1 y2 y3 y4, digits2 m1 m2, digits2 d1 d2, digits2 h1 h2,
        digits2 mi1 mi2, digits2 s1 s2, digits3 f1 f2 f3 with
    | some y, some mo, some d, some h, some mi, some sec, some f =>
      if 1 ≤ mo && mo ≤ 12 && 1 ≤ d && d ≤ 31 && h ≤ 23 && mi ≤ 59 && sec ≤ 59 then
        .fin ((((daysFromCivil y mo d) * 86400 + h * 3600 + mi * 60 + sec) * 1000 + f : ℤ) : ℚ)
      else .nan
    | _, _, _, _, _, _, _ => .nan
  | _ => .nan

/-- `compareProducts` from `server.js`. -/
def compareProducts (a b : Product) (sortBy sortDir : String) : ℚ :=
  let factor : ℚ := if sortDir = "desc" then -1 else 1
  if sortBy = "sort_order" then
    let numA := a.sort_order
    let numB := b.sort_order
    if numA = numB then strCompareQ a.name b.name * factor else (numA - numB) * factor
  else if sortBy = "created_at" then
    let timeA := match dateParseMs a.created_at with
                 | .fin q => q
                 | _ => 0
    let timeB := match dateParseMs b.created_at with
                 | .fin q => q
                 | _ => 0
    if timeA = timeB then strCompareQ a.name b.name * factor else (timeA - timeB) * factor
  else
    let textA := jsToLower (jsStrOrDefault (getField a.toRaw sortBy) "")
    let textB := jsToLower (jsStrOrDefault (getField b.toRaw sortBy) "")
    if textA = textB then strCompareQ a.name b.name * factor
    else strCompareQ textA textB * factor

/-- Stable insertion of `x` into an already sorted list (earlier elements
win ties). -/
def insortInsert {α : Type} (le : α → α → Bool) (x : α) : List α → List α
  | [] => [x]
  | y :: ys => if le x y then x :: y :: ys else y :: insortInsert le x ys

/-- Stable sort modelling `Array.prototype.sort` (which is stable in every
modern engine) for a consistent comparator. -/
def insortBy {α : Type} (le : α → α → Bool) : List α → List α
  | [] => []
  | x :: xs => insortInsert le x (insortBy le xs)

/-- `new Map(baseProducts.map((p) => [String(p.id), p]))` over the
re-normalized current catalog (the `productMap` of `mergeProductChanges`). -/
def normalizedCatalogMap (currentProducts : List JsVal) (t : ℕ) (now : String) :
    List (String × Product) :=
  (idxMapFrom (fun i e => normalizeProduct e i t now) 0 currentProducts).foldl
    (fun m p => setKey m p.id p) []

/-- `mergeProductChanges` from `server.js`. -/
def mergeProductChanges (currentProducts productChanges : List JsVal)
    (t : ℕ) (now : String) : List Product :=
  let normalizedChanges := idxMapFrom (fun i e => normalizeProduct e i t now) 0 productChanges
  let productMap := normalizedCatalogMap currentProducts t now
  let merged := normalizedChanges.foldl (fun m incoming =>
    match getKey? m incoming.id with
    | some existing =>
      setKey m incoming.id
        { incoming with
          created_at := if existing.created_at ≠ "" then existing.created_at else now
          updated_at := now
          owner_user_id := match incoming.owner_user_id with
                           | some w => some w
                           | none => existing.owner_user_id }
    | none =>
      setKey m incoming.id
        { incoming with
          created_at := if incoming.created_at ≠ "" then incoming.created_at else now
          updated_at := now }) productMap
  insortBy (fun a b => decide (compareProducts a b "sort_order" "asc" ≤ 0))
    (merged.map Prod.snd)

/-- `getSubmissionRowById` + `serializeSubmissionRow`: the row exists and
its vendor join succeeds. -/
def getSubmissionById (db : Db) (submissionId : ℕ) : Option Submission :=
  match db.submissions.find? (fun s => s.id = submissionId) with
  | some s => if db.users.any (fun u => u.id = s.vendor_id) then some s else none
  | none => none

/-- `approveSubmission` from `server.js`: 404 when missing, 409 when not
pending; otherwise re-normalize the stored snapshot, merge it into the
catalog, persist, and flip the submission to approved. -/
def approveSubmission (db : Db) (submissionId : ℕ) (adminId : ℚ)
    (t : ℕ) (now : String) : Except Err (Db × Submission) :=
  match getSubmissionById db submissionId with
  | none => .error ⟨404, "Submission not found."⟩
  | some existing =>
    if existing.status ≠ "pending" then
      .error ⟨409, "Only pending submissions can be reviewed."⟩
    else
      let snapshot := normalizeProduct existing.snapshot.toRaw 0 t now
      let read := getSiteState db t now
      let merged := mergeProductChanges read.1 [snapshot.toRaw] t now
      let db2 := saveSiteState read.2 (.arr (merged.map Product.toRaw)) t now
      let updated := { existing with
        status := "approved"
        rejection_reason := none
        reviewed_at := some now
        reviewed_by := some adminId }
      let db3 := { db2 with
        submissions := db2.submissions.map fun s =>
          if s.id = submissionId then updated else s }
      .ok (db3, updated)

/-- `rejectSubmission` from `server.js`: reason validation first (trimmed,
nonempty, at most 2000 characters), then 404/409 checks, then the flip to
rejected; the catalog is never touched. -/
def rejectSubmission (db : Db) (submissionId : ℕ) (adminId : ℚ)
    (reason : String) (now : String) : Except Err (Db × Submission) :=
  let cleanReason := jsTrim reason
  if cleanReason = "" then .error ⟨400, "Reject reason is required."⟩
  else if 2000 < cleanReason.length then
    .error ⟨400, "Reject reason must be 2000 characters or fewer."⟩
  else
    match getSubmissionById db submissionId with
    | none => .error ⟨404, "Submission not found."⟩
    | some existing =>
      if existing.status ≠ "pending" then
        .error ⟨409, "Only pending submissions can be reviewed."⟩
      else
        let updated := { existing with
          status := "rejected"
          rejection_reason := some cleanReason
          reviewed_at := some now
          reviewed_by := some adminId }
        .ok ({ db with
          submissions := db.submissions.map fun s =>
            if s.id = submissionId then updated else s }, updated)

/-- The state left behind by an approve call (a thrown error leaves the
store untouched, since every throw happens before any write). -/
def approveOutcomeDb (db : Db) (submissionId : ℕ) (adminId : ℚ)
    (t : ℕ) (now : String) : Db :=
  match approveSubmission db submissionId adminId t now with
  | .ok r => r.1
  | .error _ => db

/-- The state left behind by a reject call. -/
def rejectOutcomeDb (db : Db) (submissionId : ℕ) (adminId : ℚ)
    (reason : String) (now : String) : Db :=
  match rejectSubmission db submissionId adminId reason now with
  | .ok r => r.1
  | .error _ => db

/-- The payload object a vendor call works on
(`(rawPayload && typeof rawPayload === "object") ? rawPayload : {}`). -/
def vendorPayloadObject (rawPayload : JsVal) : JsVal :=
  match rawPayload with
  | .obj fs => JsVal.obj fs
  | .arr es => JsVal.arr es
  | _ => JsVal.obj []

/-- The change-list resolution of `buildVendorProductPayload`
(`product_changes`, else `products`, else a truthy singleton `product`). -/
def vendorPayloadChanges (payload : JsVal) : List JsVal :=
  match getField payload "product_changes" with
  | .arr es => es
  | _ => match getField payload "products" with
         | .arr es => es
         | _ => if (getField payload "product").truthy then
                  [getField payload "product"]
                else []

/-- `new Map(products.map((p) => [String(p.id), p]))`. -/
def catalogById (products : List JsVal) : List (String × JsVal) :=
  products.foldl (fun m p => setKey m (jsToStr (getField p "id")) p) []

/-- `req.body?.payload` unwrapping of the `POST /api/submissions` route. -/
def routeSubmissionPayload (body : JsVal) : JsVal :=
  match getField body "payload" with
  | .obj fs => JsVal.obj fs
  | .arr es => JsVal.arr es
  | _ => body

/-- The `{...product, owner_user_id: Number(vendorUser.id)}` spread inside
`createProductSubmissionsFromVendorPayload`. -/
def spreadWithOwner (product : JsVal) (vendorId : ℚ) : JsVal :=
  .obj (setKey (jsSpreadFields product) "owner_user_id" (.num (.fin vendorId)))

/-- The `incoming.forEach` insert loop of
`createProductSubmissionsFromVendorPayload`; a thrown ownership error
stops the loop, leaving earlier inserts in place. -/
def createSubsLoop (db : Db) (vendorUser : Account)
    (existingById : List (String × JsVal)) (note : String)
    (t : ℕ) (now : String) :
    List JsVal → ℕ → List Submission → Db × Except Err (List Submission)
  | [], _, acc => (db, .ok acc)
  | product :: rest, index, acc =>
    let normalizedSnapshot := normalizeProduct (spreadWithOwner product vendorUser.id) index t now
    let existing := getKey? existingById normalizedSnapshot.id
    match existing with
    | some e =>
      if ¬ jsStrictEqNum (jsToNum (getField e "owner_user_id")) (.fin vendorUser.id) then
        (db, .error ⟨403, "You can edit only your own products."⟩)
      else
        let newSub : Submission := {
          id := db.nextSubmissionId
          vendor_id := vendorUser.id
          product_id := normalizedSnapshot.id
          submission_type := "update"
          snapshot := normalizedSnapshot
          base_snapshot := some (normalizeProduct e 0 t now)
          vendor_note := note
          status := "pending"
          rejection_reason := none
          created_at := now
          reviewed_at := none
          reviewed_by := none }
        let db' := { db with
          submissions := db.submissions ++ [newSub]
          nextSubmissionId := db.nextSubmissionId + 1 }
        let acc' := match getSubmissionById db' newSub.id with
                    | some inserted => acc ++ [inserted]
                    | none => acc
        createSubsLoop db' vendorUser existingById note t now rest (index + 1) acc'
    | none =>
      let newSub : Submission := {
        id := db.nextSubmissionId
        vendor_id := vendorUser.id
        product_id := normalizedSnapshot.id
        submission_type := "create"
        snapshot := normalizedSnapshot
        base_snapshot := none
        vendor_note := note
        status := "pending"
        rejection_reason := none
        created_at := now
        reviewed_at := none
        reviewed_by := none }
      let db' := { db with
        submissions := db.submissions ++ [newSub]
        nextSubmissionId := db.nextSubmissionId + 1 }
      let acc' := match getSubmissionById db' newSub.id with
                  | some inserted => acc ++ [inserted]
                  | none => acc
      createSubsLoop db' vendorUser existingById note t now rest (index + 1) acc'

/-- `createProductSubmissionsFromVendorPayload` from `server.js`. -/
def createProductSubmissionsFromVendorPayload (db : Db) (vendorUser : Account)
    (payload : JsVal) (title description : String) (t : ℕ) (now : String) :
    Db × Except Err (List Submission) :=
  let read := getSiteState db t now
  let existingById := catalogById read.1
  let incoming := match getField payload "product_changes" with
                  | .arr es => es
                  | _ => []
  if incoming.isEmpty then
    (read.2, .error ⟨400, "At least one product change is required."⟩)
  else
    let noteBase := if description ≠ "" then description
                    else if title ≠ "" then title else ""
    createSubsLoop read.2 vendorUser existingById (jsTrim noteBase) t now incoming 0 []

/-- The ownership-checking `.map` of `buildVendorProductPayload`; a
violation throws, aborting the whole map. -/
def buildCheckLoop (currentMap : List (String × JsVal)) (userId : ℚ) :
    List Product → Except Err (List Product)
  | [] => .ok []
  | product :: rest =>
    match getKey? currentMap product.id with
    | some existing =>
      if ¬ jsStrictEqNum (jsToNum (getField existing "owner_user_id")) (.fin userId) then
        .error ⟨403, "You can edit only your own products."⟩
      else
        match buildCheckLoop currentMap userId rest with
        | .ok r => .ok ({ product with owner_user_id := some userId } :: r)
        | .error e => .error e
    | none =>
      match buildCheckLoop currentMap userId rest with
      | .ok r => .ok ({ product with owner_user_id := some userId } :: r)
      | .error e => .error e

/-- `buildVendorProductPayload` from `server.js`: rejects section edits,
requires at least one product change, normalizes each change and fails
with an ownership violation when an existing product belongs to a
different account. -/
def buildVendorProductPayload (db : Db) (rawPayload : JsVal) (userId : ℚ)
    (t : ℕ) (now : String) : Db × Except Err (List Product) :=
  let payload := vendorPayloadObject rawPayload
  if (getField payload "sections").truthy then
    (db, .error ⟨403, "Vendors can edit products only."⟩)
  else
    let changes := vendorPayloadChanges payload
    if changes.isEmpty then
      (db, .error ⟨400, "Please provide at least one product change."⟩)
    else
      let read := getSiteState db t now
      let currentMap := catalogById read.1
      let normalizedChanges := idxMapFrom (fun i e => normalizeProduct e i t now) 0 changes
      (read.2, buildCheckLoop currentMap userId normalizedChanges)

/-- The `POST /api/submissions` route body: unwrap the payload, validate it
with `buildVendorProductPayload`, then create the submission rows. -/
def submitRoute (db : Db) (vendor : Account) (body : JsVal)
    (t : ℕ) (now : String) : Db × Except Err (List Submission) :=
  let payload := routeSubmissionPayload body
  match buildVendorProductPayload db payload vendor.id t now with
  | (db1, .error e) => (db1, .error e)
  | (db1, .ok normalizedChanges) =>
    let t0 := jsTrim (jsStrOrDefault (getField body "title") "Product submission")
    let title := if t0 = "" then "Product submission" else t0
    let description := jsTrim (jsStrOrDefault
      (jsOr (getField body "description") (getField body "vendor_note")) "")
    createProductSubmissionsFromVendorPayload db1 vendor
      (.obj [("target", .str "vendor_products"),
             ("product_changes", .arr (normalizedChanges.map Product.toRaw))])
      title description t now

/-! ### Session/identity layer (`auth.js`) and account administration -/

/-- A verified session-token payload (`jwt.verify` output); an invalid or
expired token is modelled as `none` at the call site. -/
structure TokenPayload where
  id : ℚ
  sv : JsVal
deriving Repr

/-- `Number(user?.session_version || 0)` (`0 || 0 = 0`). -/
def sessionVersionOf (u : Account) : ℚ := u.session_version.getD 0

/-- `signSessionToken`: the issued token embeds the account id and the
account's current session version. -/
def signSessionToken (user : Account) : TokenPayload :=
  { id := user.id, sv := .num (.fin (sessionVersionOf user)) }

/-- `String(user.status || "active")`. -/
def accountStatusString (u : Account) : String :=
  match u.status with
  | some s => if s ≠ "" then s else "active"
  | none => "active"

/-- `loadUserFromToken` from `auth.js`: re-reads the account and rejects
the token when the account is missing, its status is not active, or the
token's finite session version differs from the account's current one. -/
def loadUserFromToken (users : List Account) (token : Option TokenPayload) :
    Option Account :=
  match token with
  | none => none
  | some payload =>
    match users.find? (fun u => u.id = payload.id) with
    | none => none
    | some user =>
      if jsToLower (accountStatusString user) ≠ "active" then none
      else
        match jsToNum payload.sv with
        | .fin tokenVersion =>
          if tokenVersion ≠ sessionVersionOf user then none else some user
        | _ => some user

/-- `parseAccountStatusInput` from `server.js`. -/
def parseAccountStatusInput (v : JsVal) : Option String :=
  let normalized := jsToLower (jsTrim (jsStrOrDefault v ""))
  if ACCOUNT_STATUSES.contains normalized then some normalized else none

/-- `getAccountById`: positive-integer id, matching role. -/
def getAccountById (users : List Account) (role : String) (id : ℚ) :
    Option Account :=
  if id.den = 1 ∧ 0 < id then
    users.find? (fun u => u.id = id ∧ u.role = role)
  else none

/-- `setAccountStatus` from `server.js`: updates the status and bumps the
session version exactly when the new status is `disabled` (otherwise the
version is rewritten unchanged, coalescing null to 0). -/
def setAccountStatus (users : List Account) (role : String) (targetId : ℚ)
    (status : JsVal) : Except Err (List Account) :=
  match getAccountById users role targetId with
  | none => .error ⟨404, if role = "vendor" then "Vendor not found." else "User not found."⟩
  | some target =>
    match parseAccountStatusInput status with
    | none => .error ⟨400, "Status must be either \x27active\x27 or \x27disabled\x27."⟩
    | some normalizedStatus =>
      .ok (users.map fun u =>
        if u.id = target.id then
          { u with
            status := some normalizedStatus
            session_version := some (if normalizedStatus = "disabled" then
              sessionVersionOf u + 1 else sessionVersionOf u) }
        else u)

/-- `revokeAccountSessions` from `server.js`: bumps the session version. -/
def revokeAccountSessions (users : List Account) (role : String) (targetId : ℚ) :
    Except Err (List Account) :=
  match getAccountById users role targetId with
  | none => .error ⟨404, if role = "vendor" then "Vendor not found." else "User not found."⟩
  | some target =>
    .ok (users.map fun u =>
      if u.id = target.id then
        { u with session_version := some (sessionVersionOf u + 1) }
      else u)

/-! ### Product listing with pagination (`listProductsWithQuery`) -/

def PRODUCT_SORT_FIELDS : List String :=
  ["sort_order", "name", "gallery_type", "status", "created_at"]

/-- `isPublicProduct`. -/
def isPublicProduct (p : Product) : Bool :=
  jsToLower p.status = "active"

/-- The query-string parameters consumed by `listProductsWithQuery`
(each is the raw value, `undefined` when absent). -/
structure ProductsQuery where
  page : JsVal := .undef
  page_size : JsVal := .undef
  pageSize : JsVal := .undef
  search : JsVal := .undef
  gallery_type : JsVal := .undef
  galleryType : JsVal := .undef
  status : JsVal := .undef
  sort_by : JsVal := .undef
  sortBy : JsVal := .undef
  sort_dir : JsVal := .undef
  sortDir : JsVal := .undef
deriving Repr

/-- `array.slice(start, end)` with JS index clamping (negative indices
count from the end). -/
def jsSlice {α : Type} (l : List α) (start stop : ℤ) : List α :=
  let len : ℤ := l.length
  let s := if start < 0 then max (len + start) 0 else min start len
  let e := if stop < 0 then max (len + stop) 0 else min stop len
  if s < e then (l.drop s.toNat).take (e - s).toNat else []

/-- The result object of `listProductsWithQuery`. -/
structure ProductsPage where
  items : List Product
  total : ℕ
  page : ℤ
  pageSize : ℤ
  totalPages : ℤ
  hasPrev : Bool
  hasNext : Bool
  sortBy : String
  sortDir : String
deriving Repr

/-- `Math.ceil(total / pageSize)` over the rationals (the embedding is
meaningful for positive page sizes; a zero page size — reachable only via
fractional `page_size` query values below 1 — yields Infinity/NaN paging
in JS and is outside the pagination contract). -/
def jsCeilDiv (total pageSize : ℤ) : ℤ :=
  Int.ceil ((total : ℚ) / (pageSize : ℚ))

/-- `listProductsWithQuery` from `server.js`. -/
def listProductsWithQuery (db : Db) (actor : Option Account)
    (query : ProductsQuery) (t : ℕ) (now : String) : ProductsPage × Db :=
  let rawPage := jsToNum (jsOr query.page (.num (.fin 1)))
  let rawPageSizeInput := jsNullish query.page_size (jsNullish query.pageSize (.num (.fin 24)))
  let rawPageSize := if jsToLower (jsToStr rawPageSizeInput) = "all" then JsNum.fin 10000
                     else jsToNum rawPageSizeInput
  let page : ℤ := match rawPage with
                  | .fin q => if 0 < q then ⌊q⌋ else 1
                  | _ => 1
  let pageSize : ℤ := match rawPageSize with
                      | .fin q => if 0 < q then min 200 ⌊q⌋ else 24
                      | _ => 24
  let search := jsToLower (jsTrim (jsStrOrDefault query.search ""))
  let galleryType := jsToLower (jsTrim (jsStrOrDefault
    (jsOr query.gallery_type query.galleryType) ""))
  let status := jsToLower (jsTrim (jsStrOrDefault query.status ""))
  let sortByRaw := jsToLower (jsTrim (jsStrOrDefault
    (jsOr query.sort_by (jsOr query.sortBy (.str "sort_order"))) ""))
  let sortBy := if PRODUCT_SORT_FIELDS.contains sortByRaw then sortByRaw else "sort_order"
  let sortDir := if jsToLower (jsTrim (jsStrOrDefault
      (jsOr query.sort_dir (jsOr query.sortDir (.str "asc"))) "")) = "desc"
    then "desc" else "asc"
  let read := getProductsArray db t now
  let rows0 := read.1
  let rows1 := match actor with
               | none => rows0.filter isPublicProduct
               | some a =>
                 if a.role = "user" then rows0.filter isPublicProduct
                 else if a.role = "vendor" then
                   rows0.filter fun p =>
                     jsStrictEqNum (jsToNum (optNumToJs p.owner_user_id)) (.fin a.id)
                 else rows0
  let rows2 := if search ≠ "" then
      rows1.filter fun p =>
        [p.id, p.name, p.gallery_type, p.category, p.artist_name, p.artist_role].any
          fun x => jsIncludes (jsToLower x) search
    else rows1
  let rows3 := if galleryType ≠ "" then
      let normalizedType := toGalleryType (.str galleryType)
      if normalizedType = "art" then
        rows2.filter fun p => jsToLower p.gallery_type = "art" ||
          jsToLower p.gallery_type = "sculpture"
      else rows2.filter fun p => jsToLower p.gallery_type = normalizedType
    else rows2
  let rows4 := if status ≠ "" && PRODUCT_STATUSES.contains status then
      rows3.filter fun p => jsToLower p.status = status
    else rows3
  let sorted := insortBy (fun a b => decide (compareProducts a b sortBy sortDir ≤ 0)) rows4
  let total : ℕ := sorted.length
  let totalPages : ℤ := max 1 (jsCeilDiv total pageSize)
  let normalizedPage : ℤ := min page totalPages
  let start : ℤ := (normalizedPage - 1) * pageSize
  let items := jsSlice sorted start (start + pageSize)
  ({ items := items
     total := total
     page := normalizedPage
     pageSize := pageSize
     totalPages := totalPages
     hasPrev := decide (1 < normalizedPage)
     hasNext := decide (normalizedPage < totalPages)
     sortBy := sortBy
     sortDir := sortDir }, read.2)

/-! ### Claims -/

theorem rejectSubmission_ok_inv (db : Db) (sid : ℕ) (a : ℚ) (r now : String)
    (db2 : Db) (sub2 : Submission)
    (h : rejectSubmission db sid a r now = .ok (db2, sub2)) :
    db2.siteRow = db.siteRow ∧ db2.users = db.users ∧
      db2.nextSubmissionId = db.nextSubmissionId := by
  simp only [rejectSubmission] at h
  split at h
  · simp at h
  · split at h
    · simp at h
    · split at h
      · simp at h
      · split at h
        · simp at h
        · simp only [Except.ok.injEq, Prod.mk.injEq] at h
          obtain ⟨h1, _⟩ := h
          subst h1
          exact ⟨rfl, rfl, rfl⟩

theorem approveSubmission_409 (db : Db) (sid : ℕ) (a : ℚ) (t : ℕ) (now : String)
    (s : Submission) (hfind : getSubmissionById db sid = some s)
    (hnp : s.status ≠ "pending") :
    approveSubmission db sid a t now =
      .error ⟨409, "Only pending submissions can be reviewed."⟩ := by
  simp [approveSubmission, hfind, hnp]

theorem rejectSubmission_409 (db : Db) (sid : ℕ) (a : ℚ) (r now : String)
    (s : Submission) (hfind : getSubmissionById db sid = some s)
    (hnp : s.status ≠ "pending")
    (h1 : jsTrim r ≠ "") (h2 : (jsTrim r).length ≤ 2000) :
    rejectSubmission db sid a r now =
      .error ⟨409, "Only pending submissions can be reviewed."⟩ := by
  simp only [rejectSubmission]
  rw [if_neg h1, if_neg (Nat.not_lt.mpr h2), hfind]
  simp [hnp]

/-- C5: `reject(submissionId, admin, reason)` fails with 400 when the
trimmed reason is empty or longer than 2000 characters; with a nonempty
trimmed reason of at most 2000 characters it succeeds on a pending
submission and records the trimmed reason (hence the reason verbatim when
it carries no surrounding whitespace); and no call, successful or not,
ever touches the persisted catalog row. -/
theorem reject_reason_validation (db : Db) (sid : ℕ) (adminId : ℚ)
    (reason now : String) :
    (jsTrim reason = "" →
      rejectSubmission db sid adminId reason now =
        .error ⟨400, "Reject reason is required."⟩) ∧
    (jsTrim reason ≠ "" → 2000 < (jsTrim reason).length →
      rejectSubmission db sid adminId reason now =
        .error ⟨400, "Reject reason must be 2000 characters or fewer."⟩) ∧
    (∀ s, getSubmissionById db sid = some s → s.status = "pending" →
      jsTrim reason ≠ "" → (jsTrim reason).length ≤ 2000 →
      rejectSubmission db sid adminId reason now =
        .ok ({ db with submissions := db.submissions.map (fun x =>
                 if x.id = sid then
                   { s with
                     status := "rejected"
                     rejection_reason := some (jsTrim reason)
                     reviewed_at := some now
                     reviewed_by := some adminId }
                 else x) },
             { s with
               status := "rejected"
               rejection_reason := some (jsTrim reason)
               reviewed_at := some now
               reviewed_by := some adminId }) ∧
      (jsTrim reason = reason →
        some (jsTrim reason) = some reason)) ∧
    (rejectOutcomeDb db sid adminId reason now).siteRow = db.siteRow := by
  refine ⟨?_, ?_, ?_, ?_⟩
  · intro h
    simp only [rejectSubmission]
    rw [if_pos h]
  · intro h1 h2
    simp only [rejectSubmission]
    rw [if_neg h1, if_pos h2]
  · intro s hs hp h1 h2
    refine ⟨?_, fun h => by rw [h]⟩
    simp only [rejectSubmission]
    rw [if_neg h1, if_neg (Nat.not_lt.mpr h2), hs]
    simp [hp]
  · unfold rejectOutcomeDb
    cases h : rejectSubmission db sid adminId reason now with
    | error e => rfl
    | ok r => exact (rejectSubmission_ok_inv db sid adminId reason now r.1 r.2 h).1

def productW : Product :=
  normalizeProduct (.obj [("id", .str "p1"), ("name", .str "Art piece"),
    ("owner_user_id", .num (.fin 7))]) 0 3 "2026-01-01T00:00:00.000Z"

def vendorW : Account :=
  { id := 7, name := "Vendor", email := "v@example.com", role := "vendor",
    slug := "v", status := some "active", session_version := some 0 }

def adminW : Account :=
  { id := 9, name := "Admin", email := "a@example.com", role := "admin",
    slug := "a", status := some "active", session_version := some 0 }

def subW : Submission :=
  { id := 1, vendor_id := 7, product_id := "p1", submission_type := "create",
    snapshot := productW, base_snapshot := none, vendor_note := "",
    status := "pending", rejection_reason := none, created_at := "T0",
    reviewed_at := none, reviewed_by := none }

def dbW : Db :=
  { siteRow := some (.arr [.obj [("id", .str "px"), ("name", .str "Other"),
      ("owner_user_id", .num (.fin 8))]]),
    submissions := [subW], nextSubmissionId := 2, users := [vendorW, adminW] }

theorem reject_reason_validation_witness :
    jsTrim " bad " ≠ "" ∧ (jsTrim " bad ").length ≤ 2000 ∧
    getSubmissionById dbW 1 = some subW ∧ subW.status = "pending" ∧
    rejectSubmission dbW 1 9 " bad " "T1" =
      .ok ({ dbW with submissions := dbW.submissions.map (fun x =>
               if x.id = 1 then
                 { subW with
                   status := "rejected"
                   rejection_reason := some (jsTrim " bad ")
                   reviewed_at := some "T1"
                   reviewed_by := some 9 }
               else x) },
           { subW with
             status := "rejected"
             rejection_reason := some (jsTrim " bad ")
             reviewed_at := some "T1"
             reviewed_by := some 9 }) := by
  have hfind : getSubmissionById dbW 1 = some subW := by
    simp [getSubmissionById, dbW, subW, vendorW, adminW, List.find?, List.any]
  have h1 : jsTrim " bad " ≠ "" := by decide
  have h2 : (jsTrim " bad ").length ≤ 2000 := by decide
  have hp : subW.status = "pending" := rfl
  exact ⟨h1, h2, hfind, hp,
    ((reject_reason_validation dbW 1 9 " bad " "T1").2.2.1 subW hfind hp h1 h2).1⟩

theorem getSiteState_only_siteRow (db : Db) (t : ℕ) (now : String) :
    (getSiteState db t now).2.submissions = db.submissions ∧
    (getSiteState db t now).2.users = db.users ∧
    (getSiteState db t now).2.nextSubmissionId = db.nextSubmissionId := by
  unfold getSiteState
  cases db.siteRow with
  | none => exact ⟨rfl, rfl, rfl⟩
  | some v =>
    simp only
    split
    · exact ⟨rfl, rfl, rfl⟩
    · exact ⟨rfl, rfl, rfl⟩

theorem rejectSubmission_ok_shape (db0 : Db) (sid0 : ℕ) (a : ℚ) (r0 n0 : String)
    (db2 : Db) (sub2 : Submission)
    (h : rejectSubmission db0 sid0 a r0 n0 = .ok (db2, sub2)) :
    ∃ s0, getSubmissionById db0 sid0 = some s0 ∧ s0.status = "pending" ∧
      sub2 = { s0 with
        status := "rejected"
        rejection_reason := some (jsTrim r0)
        reviewed_at := some n0
        reviewed_by := some a } ∧
      db2 = { db0 with submissions :=
        db0.submissions.map (fun x => if x.id = sid0 then sub2 else x) } := by
  simp only [rejectSubmission] at h
  split at h
  · simp at h
  · split at h
    · simp at h
    · cases hf : getSubmissionById db0 sid0 with
      | none => rw [hf] at h; simp at h
      | some s0 =>
        rw [hf] at h
        simp only at h
        split at h
        · simp at h
        · next hnp =>
          simp only [Except.ok.injEq, Prod.mk.injEq] at h
          obtain ⟨hdb, hsub⟩ := h
          refine ⟨s0, rfl, by simpa using hnp, hsub.symm, ?_⟩
          rw [← hdb, ← hsub]

theorem approveSubmission_ok_shape (db0 : Db) (sid0 : ℕ) (a : ℚ) (t0 : ℕ)
    (n0 : String) (db2 : Db) (sub2 : Submission)
    (h : approveSubmission db0 sid0 a t0 n0 = .ok (db2, sub2)) :
    ∃ s0, getSubmissionById db0 sid0 = some s0 ∧ s0.status = "pending" ∧
      sub2 = { s0 with
        status := "approved"
        rejection_reason := none
        reviewed_at := some n0
        reviewed_by := some a } ∧
      db2.submissions = db0.submissions.map (fun x => if x.id = sid0 then sub2 else x) := by
  simp only [approveSubmission] at h
  cases hf : getSubmissionById db0 sid0 with
  | none => rw [hf] at h; simp at h
  | some s0 =>
    rw [hf] at h
    simp only at h
    split at h
    · simp at h
    · next hnp =>
      simp only [Except.ok.injEq, Prod.mk.injEq] at h
      obtain ⟨hdb, hsub⟩ := h
      refine ⟨s0, rfl, by simpa using hnp, hsub.symm, ?_⟩
      rw [← hdb, ← hsub]
      show ((getSiteState db0 t0 n0).2.submissions.map _) = _
      rw [(getSiteState_only_siteRow db0 t0 n0).1]

/-- C2: a submission's status transitions exactly once — reviewing a
submission that is already approved or rejected always fails with a 409
conflict and leaves the store untouched, and the only transitions a
successful review can make are pending-to-approved and
pending-to-rejected. -/
theorem submission_review_terminal (db : Db) (sid : ℕ) (adminId : ℚ)
    (s : Submission) (reason now : String) (t : ℕ)
    (hfind : getSubmissionById db sid = some s)
    (hterm : s.status = "approved" ∨ s.status = "rejected") :
    approveSubmission db sid adminId t now =
      .error ⟨409, "Only pending submissions can be reviewed."⟩ ∧
    (jsTrim reason ≠ "" → (jsTrim reason).length ≤ 2000 →
      rejectSubmission db sid adminId reason now =
        .error ⟨409, "Only pending submissions can be reviewed."⟩) ∧
    approveOutcomeDb db sid adminId t now = db ∧
    rejectOutcomeDb db sid adminId reason now = db ∧
    (∀ (db0 : Db) (sid0 : ℕ) (a : ℚ) (t0 : ℕ) (n0 : String) (db2 : Db) (sub2 : Submission),
      approveSubmission db0 sid0 a t0 n0 = .ok (db2, sub2) →
      ∃ s0, getSubmissionById db0 sid0 = some s0 ∧ s0.status = "pending" ∧
        sub2.status = "approved" ∧
        db2.submissions = db0.submissions.map (fun x => if x.id = sid0 then sub2 else x)) ∧
    (∀ (db0 : Db) (sid0 : ℕ) (a : ℚ) (r0 n0 : String) (db2 : Db) (sub2 : Submission),
      rejectSubmission db0 sid0 a r0 n0 = .ok (db2, sub2) →
      ∃ s0, getSubmissionById db0 sid0 = some s0 ∧ s0.status = "pending" ∧
        sub2.status = "rejected" ∧
        db2.submissions = db0.submissions.map (fun x => if x.id = sid0 then sub2 else x)) := by
  have hnp : s.status ≠ "pending" := by
    rcases hterm with h | h <;> simp [h]
  refine ⟨approveSubmission_409 db sid adminId t now s hfind hnp, ?_, ?_, ?_, ?_, ?_⟩
  · intro h1 h2
    exact rejectSubmission_409 db sid adminId reason now s hfind hnp h1 h2
  · unfold approveOutcomeDb
    rw [approveSubmission_409 db sid adminId t now s hfind hnp]
  · unfold rejectOutcomeDb
    cases h : rejectSubmission db sid adminId reason now with
    | error e => rfl
    | ok r =>
      obtain ⟨s0, hs0, hp0, _, _⟩ :=
        rejectSubmission_ok_shape db sid adminId reason now r.1 r.2 (by simpa using h)
      rw [hfind] at hs0
      cases hs0
      exact absurd hp0 hnp
  · intro db0 sid0 a t0 n0 db2 sub2 h
    obtain ⟨s0, h1, h2, h3, h4⟩ := approveSubmission_ok_shape db0 sid0 a t0 n0 db2 sub2 h
    exact ⟨s0, h1, h2, by rw [h3], h4⟩
  · intro db0 sid0 a r0 n0 db2 sub2 h
    obtain ⟨s0, h1, h2, h3, h4⟩ := rejectSubmission_ok_shape db0 sid0 a r0 n0 db2 sub2 h
    exact ⟨s0, h1, h2, by rw [h3], by rw [h4]⟩

def subWApproved : Submission :=
  { subW with
    status := "approved"
    reviewed_at := some "T1"
    reviewed_by := some 9 }

def dbWA : Db :=
  { dbW with submissions := [subWApproved] }

theorem submission_review_terminal_witness :
    getSubmissionById dbWA 1 = some subWApproved ∧
    approveSubmission dbWA 1 9 5 "T2" =
      .error ⟨409, "Only pending submissions can be reviewed."⟩ ∧
    approveOutcomeDb dbWA 1 9 5 "T2" = dbWA := by
  have hfind : getSubmissionById dbWA 1 = some subWApproved := by
    simp [getSubmissionById, dbWA, dbW, subWApproved, subW, vendorW, adminW,
      List.find?, List.any]
  have h := submission_review_terminal dbWA 1 9 subWApproved "r" "T2" 5 hfind
    (Or.inl rfl)
  exact ⟨hfind, h.1, h.2.2.1⟩

theorem find?_map_by_id (f : Account → Account) (hf : ∀ a, (f a).id = a.id)
    (l : List Account) (qid : ℚ) :
    (l.map f).find? (fun a => a.id = qid) = (l.find? (fun a => a.id = qid)).map f := by
  induction l with
  | nil => simp
  | cons a rest ih =>
    by_cases h : a.id = qid
    · simp [List.find?, hf, h]
    · simp only [List.map_cons, List.find?, hf, h]
      simpa [h, hf] using ih

theorem getAccountById_id (users : List Account) (role : String) (id : ℚ)
    (target : Account) (h : getAccountById users role id = some target) :
    target.id = id := by
  simp only [getAccountById] at h
  split at h
  · have := List.find?_some h
    simp at this
    exact this.1
  · simp at h

/-- Reduction of `loadUserFromToken` once the account lookup is known. -/
theorem loadUserFromToken_found (users : List Account) (payload : TokenPayload)
    (u : Account)
    (hfind : users.find? (fun a => a.id = payload.id) = some u) :
    loadUserFromToken users (some payload) =
      if jsToLower (accountStatusString u) ≠ "active" then none
      else match jsToNum payload.sv with
           | .fin tokenVersion =>
             if tokenVersion ≠ sessionVersionOf u then none else some u
           | _ => some u := by
  simp only [loadUserFromToken, hfind]

/-- If every account's session version is bumped by an id-preserving map,
a token signed before the bump no longer validates. -/
theorem loadUserFromToken_map_bump (users : List Account) (u : Account)
    (f : Account → Account) (hf : ∀ a, (f a).id = a.id)
    (hfind : users.find? (fun a => a.id = u.id) = some u)
    (hbump : sessionVersionOf (f u) = sessionVersionOf u + 1) :
    loadUserFromToken (users.map f) (some (signSessionToken u)) = none := by
  have hfind2 : (users.map f).find? (fun a => a.id = (signSessionToken u).id) =
      some (f u) := by
    rw [show (signSessionToken u).id = u.id from rfl,
      find?_map_by_id f hf users u.id, hfind]
    rfl
  rw [loadUserFromToken_found (users.map f) (signSessionToken u) (f u) hfind2]
  by_cases hs : jsToLower (accountStatusString (f u)) ≠ "active"
  · rw [if_pos hs]
  · rw [if_neg hs]
    show (match jsToNum (signSessionToken u).sv with
      | .fin tokenVersion =>
        if tokenVersion ≠ sessionVersionOf (f u) then none else some (f u)
      | _ => some (f u)) = none
    rw [show jsToNum (signSessionToken u).sv = .fin (sessionVersionOf u) from rfl]
    show (if sessionVersionOf u ≠ sessionVersionOf (f u) then none
      else some (f u)) = none
    rw [if_pos (by rw [hbump]; simp)]

/-- C8: token validation re-reads the account and returns no user when the
account is missing, its status is not active, or the token's finite
session version differs from the current one; consequently disabling an
account or revoking its sessions invalidates every previously issued
token on the next validation, with no token blocklist. -/
theorem token_session_fencing (users : List Account) (u : Account) (role : String)
    (hfind : users.find? (fun a => a.id = u.id) = some u) :
    loadUserFromToken users none = none ∧
    (∀ tok : TokenPayload, users.find? (fun a => a.id = tok.id) = none →
      loadUserFromToken users (some tok) = none) ∧
    (jsToLower (accountStatusString u) ≠ "active" →
      ∀ sv, loadUserFromToken users (some ⟨u.id, sv⟩) = none) ∧
    (∀ tv : ℚ, tv ≠ sessionVersionOf u →
      loadUserFromToken users (some ⟨u.id, .num (.fin tv)⟩) = none) ∧
    (∀ users2, setAccountStatus users role u.id (.str "disabled") = .ok users2 →
      loadUserFromToken users2 (some (signSessionToken u)) = none) ∧
    (∀ users2, revokeAccountSessions users role u.id = .ok users2 →
      loadUserFromToken users2 (some (signSessionToken u)) = none) := by
  refine ⟨rfl, ?_, ?_, ?_, ?_, ?_⟩
  · intro tok h
    simp [loadUserFromToken, h]
  · intro hs sv
    rw [loadUserFromToken_found users ⟨u.id, sv⟩ u hfind, if_pos hs]
  · intro tv htv
    rw [loadUserFromToken_found users ⟨u.id, .num (.fin tv)⟩ u hfind]
    by_cases hs : jsToLower (accountStatusString u) ≠ "active"
    · rw [if_pos hs]
    · rw [if_neg hs]
      show (if tv ≠ sessionVersionOf u then none else some u) = none
      rw [if_pos htv]
  · intro users2 h
    simp only [setAccountStatus] at h
    cases hg : getAccountById users role u.id with
    | none => rw [hg] at h; simp at h
    | some target =>
      rw [hg] at h
      have htid : target.id = u.id := getAccountById_id users role u.id target hg
      rw [show parseAccountStatusInput (.str "disabled") = some "disabled" from by
        simp [parseAccountStatusInput, jsStrOrDefault]] at h
      simp only [Except.ok.injEq] at h
      subst h
      refine loadUserFromToken_map_bump users u _ ?_ hfind ?_
      · intro a
        by_cases hc : a.id = target.id <;> simp [hc]
      · simp [sessionVersionOf, htid]
  · intro users2 h
    simp only [revokeAccountSessions] at h
    cases hg : getAccountById users role u.id with
    | none => rw [hg] at h; simp at h
    | some target =>
      rw [hg] at h
      have htid : target.id = u.id := getAccountById_id users role u.id target hg
      simp only [Except.ok.injEq] at h
      subst h
      refine loadUserFromToken_map_bump users u _ ?_ hfind ?_
      · intro a
        by_cases hc : a.id = target.id <;> simp [hc]
      · simp [sessionVersionOf, htid]

def vendorWDisabled : Account :=
  { vendorW with status := some "disabled", session_version := some 1 }

theorem token_session_fencing_witness :
    setAccountStatus [vendorW] "vendor" 7 (.str "disabled") = .ok [vendorWDisabled] ∧
    loadUserFromToken [vendorWDisabled] (some (signSessionToken vendorW)) = none := by
  have hfind : [vendorW].find? (fun a => a.id = vendorW.id) = some vendorW := by
    simp [List.find?]
  have hg : getAccountById [vendorW] "vendor" 7 = some vendorW := by
    rw [getAccountById, if_pos (by norm_num)]
    simp [List.find?, vendorW]
  have hset : setAccountStatus [vendorW] "vendor" 7 (.str "disabled") =
      .ok [vendorWDisabled] := by
    rw [setAccountStatus, hg,
      show parseAccountStatusInput (.str "disabled") = some "disabled" from by
        simp [parseAccountStatusInput, jsStrOrDefault]]
    simp [vendorW, vendorWDisabled, sessionVersionOf]
  have h7 : (7 : ℚ) = vendorW.id := by norm_num [vendorW]
  exact ⟨hset, (token_session_fencing [vendorW] vendorW "vendor" hfind).2.2.2.2.1
    [vendorWDisabled] (h7 ▸ hset)⟩

/-! ### C6: idempotence of product normalization -/

/-- C6 (counterexample): normalization is not idempotent on all inputs.
The object `{id: []}` has a truthy `id` whose string form is empty, so the
first pass stores `id = ""`; the second pass then treats the id as absent
and substitutes the time-plus-index placeholder, changing a non-timestamp
field. -/
theorem normalize_not_idempotent_cex :
    (normalizeProduct (.obj [("id", .arr [])]) 0 7 "T").id = "" ∧
    (normalizeProduct
      (normalizeProduct (.obj [("id", .arr [])]) 0 7 "T").toRaw 0 7 "T").id
      = "prod-7-0" := by
  constructor
  · simp [normalizeProduct, List.find?, jsStrOrDefault]
  · simp [normalizeProduct, Product.toRaw, List.find?, jsStrOrDefault]
    decide

/-- C6 (amended): re-normalizing a normalized product returns it unchanged
on every field except `created_at`/`updated_at` (which are refreshed only
when empty), provided the first pass produced nonempty `id`, `name` and
`category` — which holds for all inputs except those whose truthy field
values stringify to the empty string, as in the counterexample. -/
theorem normalize_idempotent_on_wellformed (x : JsVal) (i t : ℕ) (now : String)
    (j t2 : ℕ) (n2 : String)
    (hid : (normalizeProduct x i t now).id ≠ "")
    (hname : (normalizeProduct x i t now).name ≠ "")
    (hcat : (normalizeProduct x i t now).category ≠ "") :
    normalizeProduct (normalizeProduct x i t now).toRaw j t2 n2 =
      { normalizeProduct x i t now with
        created_at := if (normalizeProduct x i t now).created_at = "" then n2
          else (normalizeProduct x i t now).created_at
        updated_at := if (normalizeProduct x i t now).updated_at = "" then n2
          else (normalizeProduct x i t now).updated_at } :=
  normalizeProduct_restable _ ⟨x, i, t, now, rfl⟩ hid hname hcat j t2 n2

def prodX : JsVal :=
  .obj [("id", .str "p1"), ("name", .str "N"), ("category", .str "C")]

theorem normalize_idempotent_on_wellformed_witness :
    (normalizeProduct prodX 0 7 "T").id ≠ "" ∧
    (normalizeProduct prodX 0 7 "T").name ≠ "" ∧
    (normalizeProduct prodX 0 7 "T").category ≠ "" ∧
    normalizeProduct (normalizeProduct prodX 0 7 "T").toRaw 1 9 "U" =
      { normalizeProduct prodX 0 7 "T" with
        created_at := if (normalizeProduct prodX 0 7 "T").created_at = "" then "U"
          else (normalizeProduct prodX 0 7 "T").created_at
        updated_at := if (normalizeProduct prodX 0 7 "T").updated_at = "" then "U"
          else (normalizeProduct prodX 0 7 "T").updated_at } := by
  have h1 : (normalizeProduct prodX 0 7 "T").id = "p1" := by
    simp [prodX, normalizeProduct, List.find?, jsStrOrDefault]
  have h2 : (normalizeProduct prodX 0 7 "T").name = "N" := by
    simp [prodX, normalizeProduct, List.find?, jsStrOrDefault]
  have h3 : (normalizeProduct prodX 0 7 "T").category = "C" := by
    simp [prodX, normalizeProduct, List.find?, jsStrOrDefault]
  refine ⟨by simp [h1], by simp [h2], by simp [h3], ?_⟩
  exact normalize_idempotent_on_wellformed prodX 0 7 "T" 1 9 "U"
    (by simp [h1]) (by simp [h2]) (by simp [h3])

/-! ### C7: totality and defaults of normalization -/

/-- A value that is neither an object nor an array (assigned verbatim by
the `deepMerge` entry loop). -/
def JsVal.isPrim : JsVal → Bool
  | .obj _ => false
  | .arr _ => false
  | _ => true

theorem getKey?_setKey_self {α : Type} (l : List (String × α)) (k : String) (v : α) :
    getKey? (setKey l k v) k = some v := by
  induction l with
  | nil => simp
  | cons f rest ih =>
    obtain ⟨k1, v1⟩ := f
    by_cases h : k1 = k <;> simp [h, ih]

theorem getKey?_setKey_ne {α : Type} (l : List (String × α)) (k' k : String) (v : α)
    (h : k' ≠ k) : getKey? (setKey l k' v) k = getKey? l k := by
  induction l with
  | nil => simp [h]
  | cons f rest ih =>
    obtain ⟨k1, v1⟩ := f
    by_cases h1 : k1 = k' <;> simp [h1, h, ih]

theorem getKey?_assignEntry_ne (next : List (String × JsVal)) (k' : String) (v : JsVal)
    (k : String) (h : k' ≠ k) :
    getKey? (assignEntry next k' v) k = getKey? next k := by
  cases v <;> simp [assignEntry, getKey?_setKey_ne _ _ _ _ h]

theorem getKey?_mergeEntries_notmem (next E : List (String × JsVal)) (k : String)
    (h : k ∉ fieldKeys E) :
    getKey? (mergeEntries next E) k = getKey? next k := by
  induction E generalizing next with
  | nil => simp
  | cons f rest ih =>
    obtain ⟨k1, v⟩ := f
    simp only [fieldKeys, List.map_cons, List.mem_cons, not_or] at h
    simp only [mergeEntries]
    rw [ih _ (by simpa [fieldKeys] using h.2)]
    exact getKey?_assignEntry_ne next k1 v k (fun hc => h.1 hc.symm)

theorem getKey?_mergeEntries_prim (next E : List (String × JsVal)) (k : String)
    (w : JsVal) (hu : keysUniq (fieldKeys E) = true) (hmem : (k, w) ∈ E)
    (hw : w.isPrim = true) :
    getKey? (mergeEntries next E) k = some w := by
  induction E generalizing next with
  | nil => cases hmem
  | cons f rest ih =>
    obtain ⟨k1, v⟩ := f
    simp only [fieldKeys, List.map_cons, keysUniq, Bool.and_eq_true,
      Bool.not_eq_true'] at hu
    simp only [mergeEntries]
    rcases List.mem_cons.mp hmem with heq | hmem2
    · rw [Prod.mk.injEq] at heq
      obtain ⟨hk, hv⟩ := heq
      subst hk
      subst hv
      have hnot : k ∉ fieldKeys rest := by
        simpa [fieldKeys] using hu.1
      rw [getKey?_mergeEntries_notmem _ _ _ hnot]
      cases w <;> simp_all [JsVal.isPrim, assignEntry, getKey?_setKey_self]
    · exact ih _ (by simpa [fieldKeys] using hu.2) hmem2

theorem getKey?_extraFilter (fs : List (String × JsVal)) (k : String)
    (hk : ¬ PRODUCT_NORMALIZED_FIELDS.contains k = true) :
    getKey? (fs.filter fun f => ¬ PRODUCT_NORMALIZED_FIELDS.contains f.1) k
      = getKey? fs k := by
  induction fs with
  | nil => rfl
  | cons f rest ih =>
    obtain ⟨k1, v⟩ := f
    by_cases h1 : k1 = k
    · subst h1
      rw [List.filter_cons, if_pos (by simpa using hk)]
      simp
    · rw [List.filter_cons]
      by_cases h2 : PRODUCT_NORMALIZED_FIELDS.contains k1 = true
      · rw [if_neg (by simp only [decide_eq_true_eq]; exact fun hc => hc h2), ih]
        simp only [getKey?]
        rw [if_neg h1]
      · rw [if_pos (by simp only [decide_eq_true_eq]; exact h2)]
        simp only [getKey?]
        rw [if_neg h1, if_neg h1]
        exact ih

theorem keysUniq_filter (fs : List (String × JsVal)) (p : String × JsVal → Bool)
    (h : keysUniq (fieldKeys fs) = true) :
    keysUniq (fieldKeys (fs.filter p)) = true := by
  rw [keysUniq_iff_nodup] at h ⊢
  exact List.Nodup.sublist (List.Sublist.map _ (List.filter_sublist fs)) h

theorem NodupDeepFields_filter (fs : List (String × JsVal)) (p : String × JsVal → Bool)
    (h : NodupDeepFields fs = true) :
    NodupDeepFields (fs.filter p) = true := by
  induction fs with
  | nil => simp
  | cons f rest ih =>
    obtain ⟨k1, v⟩ := f
    simp only [NodupDeepFields, Bool.and_eq_true] at h
    rw [List.filter_cons]
    split
    · simp only [NodupDeepFields, Bool.and_eq_true]
      exact ⟨h.1, ih h.2⟩
    · exact ih h.2

/-- Unknown top-level keys that do not collide with the nested
`extra_fields` object survive extraction verbatim. -/
theorem extractKey_preserved (fs : List (String × JsVal)) (k : String)
    (hu : keysUniq (fieldKeys fs) = true) (hf : NodupDeepFields fs = true)
    (hk : ¬ PRODUCT_NORMALIZED_FIELDS.contains k = true)
    (hnested : ∀ efs, getKey? fs "extra_fields" = some (.obj efs) → k ∉ fieldKeys efs) :
    getKey? (extractProductExtraFields (.obj fs)) k = getKey? fs k := by
  simp only [extractProductExtraFields]
  rw [mergeEntries_empty_of_nodup _ (keysUniq_filter _ _ hu) (NodupDeepFields_filter _ _ hf)]
  have hE : k ∉ fieldKeys (match getKey? fs "extra_fields" with
      | some (.obj efs) => efs
      | _ => []) := by
    cases hg : getKey? fs "extra_fields" with
    | none => simp [fieldKeys]
    | some w =>
      cases w with
      | obj efs => simpa using hnested efs hg
      | _ => simp [fieldKeys]
  rw [getKey?_mergeEntries_notmem _ _ _ hE]
  exact getKey?_extraFilter fs k hk

/-- A primitive entry of the nested `extra_fields` object wins over any
unknown top-level key of the same name. -/
theorem extractKey_nested_wins (fs efs : List (String × JsVal)) (k : String) (w : JsVal)
    (hE : getKey? fs "extra_fields" = some (.obj efs))
    (hu2 : keysUniq (fieldKeys efs) = true)
    (hmem : (k, w) ∈ efs) (hw : w.isPrim = true) :
    getKey? (extractProductExtraFields (.obj fs)) k = some w := by
  simp only [extractProductExtraFields, hE]
  exact getKey?_mergeEntries_prim _ _ _ _ hu2 hmem hw

theorem normalizeProduct_missing_id (fs : List (String × JsVal)) (i t : ℕ) (now : String)
    (h : fs.find? (fun f => f.1 = "id") = none) :
    (normalizeProduct (.obj fs) i t now).id =
      "prod-" ++ natToStr t ++ "-" ++ natToStr i := by
  simp [normalizeProduct, getField, h, jsStrOrDefault]

/-- C7 (counterexample): `furniture` lies outside the gallery-type enum yet
normalizes to `designs`, not to the claimed default `art` — the legacy
remapping contradicts "any value outside the enum normalizes to art". -/
theorem gallery_default_cex :
    "furniture" ∉ GALLERY_TYPES ∧
    (normalizeProduct (.obj [("gallery_type", .str "furniture")]) 0 7 "T").gallery_type
      = "designs" := by
  constructor
  · simp [GALLERY_TYPES]
  · simp [normalizeProduct, List.find?, toGalleryType, jsStrOrDefault]

/-- C7 (amended): `normalizeProduct` is total with the documented defaults,
except that the legacy gallery type `furniture` maps to `designs` rather
than to `art`: gallery type and status always land in their enums; a
normalized (trimmed, lowercased) gallery type outside the enum and other
than `furniture` becomes `art`; a status outside its enum becomes
`active`; numeric fields round-trip through parse-or-null; a missing id
gets the time-plus-index placeholder; an unknown top-level key not shadowed
by the nested `extra_fields` object is preserved verbatim, and a primitive
entry of the nested object wins over a same-named unknown key. -/
theorem normalize_total_defaults :
    (∀ v i t now, (normalizeProduct v i t now).gallery_type ∈ GALLERY_TYPES ∧
      (normalizeProduct v i t now).status ∈ PRODUCT_STATUSES) ∧
    toGalleryType (.str "furniture") = "designs" ∧
    (∀ s, jsToLower (jsTrim (jsStrOrDefault (.str s) "")) ∉ GALLERY_TYPES →
      jsToLower (jsTrim (jsStrOrDefault (.str s) "")) ≠ "furniture" →
      toGalleryType (.str s) = "art") ∧
    (∀ s, jsToLower (jsTrim (jsStrOrDefault (.str s) "")) ∉ PRODUCT_STATUSES →
      toProductStatus (.str s) = "active") ∧
    (∀ o, toNumberOrNull (optNumToJs o) = o) ∧
    (∀ fs i t now, fs.find? (fun f => f.1 = "id") = none →
      (normalizeProduct (.obj fs) i t now).id =
        "prod-" ++ natToStr t ++ "-" ++ natToStr i) ∧
    (∀ fs k, keysUniq (fieldKeys fs) = true → NodupDeepFields fs = true →
      ¬ PRODUCT_NORMALIZED_FIELDS.contains k = true →
      (∀ efs, getKey? fs "extra_fields" = some (.obj efs) → k ∉ fieldKeys efs) →
      ∀ i t now,
        getKey? (normalizeProduct (.obj fs) i t now).extra_fields k = getKey? fs k) ∧
    (∀ fs efs k w, getKey? fs "extra_fields" = some (.obj efs) →
      keysUniq (fieldKeys efs) = true → (k, w) ∈ efs → w.isPrim = true →
      ∀ i t now,
        getKey? (normalizeProduct (.obj fs) i t now).extra_fields k = some w) := by
  refine ⟨fun v i t now => ⟨(normalizeProduct_ok v i t now).1,
    (normalizeProduct_ok v i t now).2.1⟩, ?_, ?_, ?_, toNumberOrNull_optNum,
    normalizeProduct_missing_id, ?_, ?_⟩
  · simp [toGalleryType, jsStrOrDefault]
  · intro s h1 h2
    simp only [toGalleryType]
    rw [if_neg h2, if_neg (fun hc => h1 (List.elem_iff.mp hc))]
  · intro s h1
    simp only [toProductStatus]
    rw [if_neg (fun hc => h1 (List.elem_iff.mp hc))]
  · intro fs k hu hf hk hnested i t now
    simp only [normalizeProduct]
    exact extractKey_preserved fs k hu hf hk hnested
  · intro fs efs k w hE hu2 hmem hw i t now
    simp only [normalizeProduct]
    exact extractKey_nested_wins fs efs k w hE hu2 hmem hw

theorem normalize_total_defaults_witness :
    toGalleryType (.str "chair") = "art" ∧
    getKey? (normalizeProduct (.obj [("foo", .str "bar")]) 0 7 "T").extra_fields "foo"
      = getKey? [("foo", .str "bar")] "foo" ∧
    getKey? (normalizeProduct
      (.obj [("extra_fields", .obj [("n", .num (.fin 3))])]) 0 7 "T").extra_fields "n"
      = some (.num (.fin 3)) := by
  refine ⟨normalize_total_defaults.2.2.1 "chair" ?_ ?_,
    normalize_total_defaults.2.2.2.2.2.2.1 [("foo", .str "bar")] "foo"
      (by simp [fieldKeys]) (by simp) (by decide) ?_ 0 7 "T",
    normalize_total_defaults.2.2.2.2.2.2.2 [("extra_fields", .obj [("n", .num (.fin 3))])]
      [("n", .num (.fin 3))] "n" (.num (.fin 3)) (by simp) (by simp [fieldKeys])
      (by simp) (by simp [JsVal.isPrim]) 0 7 "T"⟩
  · simp [jsStrOrDefault]
  · simp [jsStrOrDefault]
  · intro efs h
    simp at h

/-! ### C10: bootstrap re-seeding on catalog read -/

/-- The replacement product list `getSiteState` persists when it re-seeds:
the default catalog, freshly normalized. -/
def freshDefaultProducts (t : ℕ) (now : String) : List JsVal :=
  idxMapFrom (fun i e => (normalizeProduct e i t now).toRaw) 0 DEFAULT_CATALOG_PRODUCTS

theorem length_idxMapFrom {α β : Type} (f : ℕ → α → β) (i : ℕ) (l : List α) :
    (idxMapFrom f i l).length = l.length := by
  induction l generalizing i with
  | nil => rfl
  | cons x rest ih => simp [ih]

theorem mem_idxMapFrom {α β : Type} (f : ℕ → α → β) (i : ℕ) (l : List α) (b : β)
    (h : b ∈ idxMapFrom f i l) : ∃ j a, a ∈ l ∧ b = f j a := by
  induction l generalizing i with
  | nil => cases h
  | cons x rest ih =>
    rcases List.mem_cons.mp h with h1 | h2
    · exact ⟨i, x, List.mem_cons_self x rest, h1⟩
    · obtain ⟨j, a, ha, hb⟩ := ih (i + 1) h2
      exact ⟨j, a, List.mem_cons_of_mem x ha, hb⟩

/-- The seed test spelled out: nonempty, no longer than the seed-id set,
and every entry matches a seed id or a seed name. -/
theorem hasOnlyBootstrapSeed_iff (products : List JsVal) :
    hasOnlyBootstrapSeed products = true ↔
      products ≠ [] ∧ products.length ≤ AUTO_EXPAND_BOOTSTRAP_IDS.length ∧
      ∀ p ∈ products,
        jsToStr (getField p "id") ∈ AUTO_EXPAND_BOOTSTRAP_IDS ∨
        jsToLower (jsTrim (jsStrOrDefault (getField p "name") "")) ∈
          AUTO_EXPAND_BOOTSTRAP_NAMES := by
  simp only [hasOnlyBootstrapSeed, Bool.and_eq_true, decide_eq_true_eq,
    List.all_eq_true, Bool.or_eq_true, List.elem_iff,
    ← List.length_pos_iff_ne_nil]
  tauto

/-- When the stored product list normalizes to empty or to seed-only
products, the read returns the freshly normalized default catalog and
persists it. -/
theorem getSiteState_reseed (db : Db) (v : JsVal) (t : ℕ) (now : String)
    (hrow : db.siteRow = some v)
    (hcond : normalizeSiteStateProducts v t now = [] ∨
      ((normalizeSiteStateProducts v t now).length ≤ AUTO_EXPAND_BOOTSTRAP_IDS.length ∧
       ∀ p ∈ normalizeSiteStateProducts v t now,
         jsToStr (getField p "id") ∈ AUTO_EXPAND_BOOTSTRAP_IDS ∨
         jsToLower (jsTrim (jsStrOrDefault (getField p "name") "")) ∈
           AUTO_EXPAND_BOOTSTRAP_NAMES)) :
    getSiteState db t now =
      (freshDefaultProducts t now,
       { db with siteRow := some (.arr (freshDefaultProducts t now)) }) := by
  simp only [getSiteState, hrow]
  rw [if_pos]
  · rfl
  · rcases hcond with h | h
    · simp [h]
    · by_cases hne : normalizeSiteStateProducts v t now = []
      · simp [hne]
      · rw [Bool.or_eq_true, hasOnlyBootstrapSeed_iff]
        exact Or.inr ⟨hne, h.1, h.2⟩

/-- When the stored product list normalizes to something nonempty that is
not seed-only, the read returns it and persists nothing. -/
theorem getSiteState_keep (db : Db) (v : JsVal) (t : ℕ) (now : String)
    (hrow : db.siteRow = some v)
    (hne : normalizeSiteStateProducts v t now ≠ [])
    (hviol : AUTO_EXPAND_BOOTSTRAP_IDS.length < (normalizeSiteStateProducts v t now).length ∨
      ∃ p ∈ normalizeSiteStateProducts v t now,
        jsToStr (getField p "id") ∉ AUTO_EXPAND_BOOTSTRAP_IDS ∧
        jsToLower (jsTrim (jsStrOrDefault (getField p "name") "")) ∉
          AUTO_EXPAND_BOOTSTRAP_NAMES) :
    getSiteState db t now = (normalizeSiteStateProducts v t now, db) := by
  simp only [getSiteState, hrow]
  rw [if_neg]
  intro hc
  rcases Bool.or_eq_true _ _ |>.mp hc with h | h
  · exact hne (by simpa [List.isEmpty_iff] using h)
  · obtain ⟨-, hlen, hall⟩ := (hasOnlyBootstrapSeed_iff _).mp h
    rcases hviol with h2 | ⟨p, hp, hid, hname⟩
    · omega
    · rcases hall p hp with h3 | h3
      · exact hid h3
      · exact hname h3

def dbSeed4W : Db :=
  { siteRow := some (.arr [.obj [("id", .str "prod-praying-girl")],
      .obj [("id", .str "prod-praying-girl")], .obj [("id", .str "prod-praying-girl")],
      .obj [("id", .str "prod-praying-girl")]])
    submissions := []
    nextSubmissionId := 1
    users := [] }

/-- C10 (counterexample): a catalog of four copies of a bootstrap-seed
product consists solely of seed products, yet the read does not re-seed —
the hidden length cap (at most as many rows as there are seed ids) makes
the seed test fail, so the list is returned as is and nothing is
persisted. -/
theorem bootstrap_reseed_cex :
    (∀ p ∈ (getSiteState dbSeed4W 0 "T").1,
      jsToStr (getField p "id") ∈ AUTO_EXPAND_BOOTSTRAP_IDS) ∧
    (getSiteState dbSeed4W 0 "T").1.length = 4 ∧
    (getSiteState dbSeed4W 0 "T").2 = dbSeed4W := by
  have hid : ∀ (j : ℕ),
      jsToStr (getField ((normalizeProduct
        (.obj [("id", .str "prod-praying-girl")]) j 0 "T").toRaw) "id")
        = "prod-praying-girl" := by
    intro j
    simp [normalizeProduct, Product.toRaw, getField, List.find?, jsStrOrDefault]
  have hkeep := getSiteState_keep dbSeed4W _ 0 "T" rfl
    (by simp [normalizeSiteStateProducts])
    (Or.inl (by simp [normalizeSiteStateProducts, AUTO_EXPAND_BOOTSTRAP_IDS]))
  rw [hkeep]
  refine ⟨?_, by simp [normalizeSiteStateProducts], rfl⟩
  intro p hp
  simp only [normalizeSiteStateProducts, idxMapFrom, List.mem_cons,
    List.not_mem_nil, or_false] at hp
  rcases hp with rfl | rfl | rfl | rfl <;>
    · rw [hid _]
      simp [AUTO_EXPAND_BOOTSTRAP_IDS]

/-- C10 (amended): the read re-seeds exactly when the stored list
normalizes to empty, or is seed-only AND no longer than the seed-id set
(at most three rows): then the freshly normalized default catalog is
returned and persisted. A nonempty list that is too long or contains one
non-seed product is returned unchanged with no write. Deleting every
product via a save does not survive the next read. -/
theorem bootstrap_reseed_behavior :
    (∀ db v t now, db.siteRow = some v →
      (normalizeSiteStateProducts v t now = [] ∨
        ((normalizeSiteStateProducts v t now).length ≤ AUTO_EXPAND_BOOTSTRAP_IDS.length ∧
         ∀ p ∈ normalizeSiteStateProducts v t now,
           jsToStr (getField p "id") ∈ AUTO_EXPAND_BOOTSTRAP_IDS ∨
           jsToLower (jsTrim (jsStrOrDefault (getField p "name") "")) ∈
             AUTO_EXPAND_BOOTSTRAP_NAMES)) →
      getSiteState db t now =
        (freshDefaultProducts t now,
         { db with siteRow := some (.arr (freshDefaultProducts t now)) })) ∧
    (∀ db v t now, db.siteRow = some v →
      normalizeSiteStateProducts v t now ≠ [] →
      (AUTO_EXPAND_BOOTSTRAP_IDS.length < (normalizeSiteStateProducts v t now).length ∨
        ∃ p ∈ normalizeSiteStateProducts v t now,
          jsToStr (getField p "id") ∉ AUTO_EXPAND_BOOTSTRAP_IDS ∧
          jsToLower (jsTrim (jsStrOrDefault (getField p "name") "")) ∉
            AUTO_EXPAND_BOOTSTRAP_NAMES) →
      getSiteState db t now = (normalizeSiteStateProducts v t now, db)) ∧
    (∀ db t now t2 n2,
      getSiteState (saveSiteState db (.arr []) t now) t2 n2 =
        (freshDefaultProducts t2 n2,
         { db with siteRow := some (.arr (freshDefaultProducts t2 n2)) })) := by
  refine ⟨getSiteState_reseed, getSiteState_keep, ?_⟩
  intro db t now t2 n2
  rw [getSiteState_reseed (saveSiteState db (.arr []) t now) (.arr []) t2 n2
    (by simp [saveSiteState, normalizeSiteStateProducts])
    (Or.inl (by simp [normalizeSiteStateProducts]))]
  cases db
  simp [saveSiteState]

def dbEmptyW : Db :=
  { siteRow := some (.arr []), submissions := [], nextSubmissionId := 1, users := [] }

def dbForeignW : Db :=
  { siteRow := some (.arr [.obj [("id", .str "p9"), ("name", .str "Nine")]])
    submissions := []
    nextSubmissionId := 1
    users := [] }

theorem bootstrap_reseed_behavior_witness :
    getSiteState dbEmptyW 0 "T" =
      (freshDefaultProducts 0 "T",
       { dbEmptyW with siteRow := some (.arr (freshDefaultProducts 0 "T")) }) ∧
    getSiteState dbForeignW 0 "T" =
      (normalizeSiteStateProducts
        (.arr [.obj [("id", .str "p9"), ("name", .str "Nine")]]) 0 "T",
       dbForeignW) :=
  ⟨bootstrap_reseed_behavior.1 dbEmptyW (.arr []) 0 "T" rfl
      (Or.inl (by simp [normalizeSiteStateProducts])),
    bootstrap_reseed_behavior.2.1 dbForeignW _ 0 "T" rfl
      (by simp [normalizeSiteStateProducts])
      (Or.inr ⟨(normalizeProduct
          (.obj [("id", .str "p9"), ("name", .str "Nine")]) 0 0 "T").toRaw,
        by simp [normalizeSiteStateProducts],
        by simp [normalizeProduct, Product.toRaw, getField, List.find?,
          jsStrOrDefault, AUTO_EXPAND_BOOTSTRAP_IDS],
        by simp [normalizeProduct, Product.toRaw, getField, List.find?,
          jsStrOrDefault, AUTO_EXPAND_BOOTSTRAP_NAMES]⟩)⟩

/-! ### C9: the pagination invariant of `listProductsWithQuery` -/

theorem jsSlice_length_full {α : Type} (l : List α) (start stop : ℤ)
    (h0 : 0 ≤ start) (h1 : start ≤ (l.length : ℤ)) (h2 : (l.length : ℤ) ≤ stop) :
    ((jsSlice l start stop).length : ℤ) = (l.length : ℤ) - start := by
  have hs1 : ¬ start < 0 := by omega
  have hs2 : ¬ stop < 0 := by omega
  simp only [jsSlice]
  rw [if_neg hs1, if_neg hs2, min_eq_left h1, min_eq_right h2]
  by_cases hlt : start < (l.length : ℤ)
  · rw [if_pos hlt]
    simp only [List.length_take, List.length_drop]
    omega
  · rw [if_neg hlt]
    simp only [List.length_nil]
    omega

/-- Bounds of the last page window `[(tp-1)S, tpS)` around `N`. -/
theorem lastpage_core (N S : ℤ) (hN : 0 ≤ N) (hS : 1 ≤ S) :
    (max 1 (jsCeilDiv N S) - 1) * S ≤ N ∧
    N ≤ (max 1 (jsCeilDiv N S) - 1) * S + S := by
  have hS0 : (0 : ℚ) < (S : ℚ) := by exact_mod_cast (by omega : (0:ℤ) < S)
  constructor
  · rcases eq_or_lt_of_le hN with h0 | h0
    · have hc : jsCeilDiv N S = 0 := by
        simp only [jsCeilDiv, ← h0]
        norm_num
      rw [hc]
      simpa using hN
    · have hceilpos : 0 < jsCeilDiv N S := by
        simp only [jsCeilDiv]
        exact Int.ceil_pos.mpr (div_pos (by exact_mod_cast h0) hS0)
      rw [max_eq_right (by omega : (1:ℤ) ≤ jsCeilDiv N S)]
      have h1 : ((jsCeilDiv N S : ℤ) : ℚ) - 1 < (N : ℚ) / (S : ℚ) := by
        simp only [jsCeilDiv]
        have := Int.ceil_lt_add_one ((N : ℚ) / (S : ℚ))
        push_cast
        linarith
      have h2 : (((jsCeilDiv N S : ℤ) : ℚ) - 1) * (S : ℚ) < (N : ℚ) :=
        (lt_div_iff₀ hS0).mp h1
      have h3 : (jsCeilDiv N S - 1) * S < N := by exact_mod_cast h2
      omega
  · have h1 : (N : ℚ) / (S : ℚ) ≤ ((max 1 (jsCeilDiv N S) : ℤ) : ℚ) := by
      calc (N : ℚ) / (S : ℚ)
          ≤ ((jsCeilDiv N S : ℤ) : ℚ) := by
            simp only [jsCeilDiv]
            exact Int.le_ceil _
        _ ≤ ((max 1 (jsCeilDiv N S) : ℤ) : ℚ) := by
            exact_mod_cast le_max_right 1 (jsCeilDiv N S)
    have h2 : (N : ℚ) ≤ ((max 1 (jsCeilDiv N S) : ℤ) : ℚ) * (S : ℚ) := by
      rwa [div_le_iff₀ hS0] at h1
    have h3 : N ≤ max 1 (jsCeilDiv N S) * S := by exact_mod_cast h2
    have h4 : (max 1 (jsCeilDiv N S) - 1) * S + S = max 1 (jsCeilDiv N S) * S := by
      ring
    linarith

/-- On the last page the item count is `total - (totalPages - 1) * pageSize`. -/
theorem lastpage_length (sorted : List Product) (page pageSize : ℤ) (hS : 1 ≤ pageSize)
    (hpage : min page (max 1 (jsCeilDiv sorted.length pageSize)) =
      max 1 (jsCeilDiv sorted.length pageSize)) :
    ((jsSlice sorted
        ((min page (max 1 (jsCeilDiv sorted.length pageSize)) - 1) * pageSize)
        ((min page (max 1 (jsCeilDiv sorted.length pageSize)) - 1) * pageSize +
          pageSize)).length : ℤ)
      = (sorted.length : ℤ) -
          (max 1 (jsCeilDiv sorted.length pageSize) - 1) * pageSize := by
  rw [hpage]
  obtain ⟨hlow, hhigh⟩ := lastpage_core (sorted.length : ℤ) pageSize
    (by exact_mod_cast Nat.zero_le sorted.length) hS
  have hstart : 0 ≤ (max 1 (jsCeilDiv (sorted.length : ℤ) pageSize) - 1) * pageSize := by
    have := le_max_left 1 (jsCeilDiv (sorted.length : ℤ) pageSize)
    exact mul_nonneg (by omega) (by omega)
  exact jsSlice_length_full sorted _ _ hstart hlow hhigh

def dbInactiveW : Db :=
  { siteRow := some (.arr [.obj [("id", .str "p9"), ("status", .str "inactive")]])
    submissions := []
    nextSubmissionId := 1
    users := [] }

/-- C9 (counterexample): with no matching rows `totalPages` is 1 while
`ceil(N/S)` is 0, and a fractional requested page strictly between 0 and 1
is floored to 0, escaping the claimed clamp interval `[1, totalPages]`. -/
theorem pagination_cex :
    (listProductsWithQuery dbInactiveW none { page := .str "0.5" } 0 "T").1.total = 0 ∧
    (listProductsWithQuery dbInactiveW none { page := .str "0.5" } 0 "T").1.pageSize = 24 ∧
    (listProductsWithQuery dbInactiveW none { page := .str "0.5" } 0 "T").1.totalPages = 1 ∧
    jsCeilDiv 0 24 = 0 ∧
    (listProductsWithQuery dbInactiveW none { page := .str "0.5" } 0 "T").1.page = 0 := by
  have hstat : (normalizeProduct ((normalizeProduct
      (.obj [("id", .str "p9"), ("status", .str "inactive")])
        0 0 "T").toRaw) 0 0 "T").status = "inactive" := by
    simp [normalizeProduct, Product.toRaw, getField, List.find?, toProductStatus,
      jsStrOrDefault]
  have hread : getProductsArray dbInactiveW 0 "T" =
      ([normalizeProduct ((normalizeProduct
          (.obj [("id", .str "p9"), ("status", .str "inactive")])
            0 0 "T").toRaw) 0 0 "T"], dbInactiveW) := by
    simp only [getProductsArray]
    rw [getSiteState_keep dbInactiveW _ 0 "T" rfl
      (by simp [normalizeSiteStateProducts])
      (Or.inr ⟨(normalizeProduct
          (.obj [("id", .str "p9"), ("status", .str "inactive")]) 0 0 "T").toRaw,
        by simp [normalizeSiteStateProducts],
        by simp [normalizeProduct, Product.toRaw, getField, List.find?,
          jsStrOrDefault, AUTO_EXPAND_BOOTSTRAP_IDS],
        by simp [normalizeProduct, Product.toRaw, getField, List.find?,
          jsStrOrDefault, AUTO_EXPAND_BOOTSTRAP_NAMES]⟩)]
    simp [normalizeSiteStateProducts]
  have h24 : toString (24 : ℤ) = "24" := rfl
  simp only [listProductsWithQuery, hread]
  simp +decide [jsOr, jsNullish, jsStrOrDefault, isPublicProduct, hstat, insortBy,
    List.filter, h24]
  norm_num [jsCeilDiv]

/-- C9 (amended): `totalPages` is `max 1 (ceil(N/S))` (1, not 0, when no
rows match); the returned page never exceeds `totalPages` and is at least
1 whenever the requested page parses to a number whose floor is at least 1
(absent values default to 1), but a fractional request strictly between 0
and 1 is floored to 0 and escapes the lower clamp; for a positive page
size, on the last page the item count is `N - S*(totalPages - 1)`. -/
theorem pagination_invariant (db : Db) (actor : Option Account) (q : ProductsQuery)
    (t : ℕ) (now : String) :
    (listProductsWithQuery db actor q t now).1.totalPages =
      max 1 (jsCeilDiv ((listProductsWithQuery db actor q t now).1.total : ℤ)
        (listProductsWithQuery db actor q t now).1.pageSize) ∧
    1 ≤ (listProductsWithQuery db actor q t now).1.totalPages ∧
    (listProductsWithQuery db actor q t now).1.page ≤
      (listProductsWithQuery db actor q t now).1.totalPages ∧
    (1 ≤ (listProductsWithQuery db actor q t now).1.pageSize →
      (listProductsWithQuery db actor q t now).1.page =
        (listProductsWithQuery db actor q t now).1.totalPages →
      (((listProductsWithQuery db actor q t now).1.items.length : ℤ) =
        ((listProductsWithQuery db actor q t now).1.total : ℤ) -
          ((listProductsWithQuery db actor q t now).1.totalPages - 1) *
            (listProductsWithQuery db actor q t now).1.pageSize)) ∧
    ((∀ qq : ℚ, jsToNum (jsOr q.page (.num (.fin 1))) = .fin qq → 0 < qq →
        1 ≤ (⌊qq⌋ : ℤ)) →
      1 ≤ (listProductsWithQuery db actor q t now).1.page) := by
  simp only [listProductsWithQuery]
  refine ⟨trivial, le_max_left _ _, min_le_right _ _, ?_, ?_⟩
  · intro hS hpage
    exact lastpage_length _ _ _ hS hpage
  · intro H
    refine le_min ?_ (le_max_left _ _)
    cases hj : jsToNum (jsOr q.page (.num (.fin 1))) with
    | fin qq =>
      by_cases hq : 0 < qq
      · simpa [hq] using H qq hj hq
      · simp [hq]
    | nan => simp
    | inf => simp
    | ninf => simp

theorem pagination_invariant_witness :
    1 ≤ (listProductsWithQuery dbForeignW none {} 0 "T").1.pageSize ∧
    (listProductsWithQuery dbForeignW none {} 0 "T").1.page =
      (listProductsWithQuery dbForeignW none {} 0 "T").1.totalPages ∧
    (((listProductsWithQuery dbForeignW none {} 0 "T").1.items.length : ℤ) =
      ((listProductsWithQuery dbForeignW none {} 0 "T").1.total : ℤ) -
        ((listProductsWithQuery dbForeignW none {} 0 "T").1.totalPages - 1) *
          (listProductsWithQuery dbForeignW none {} 0 "T").1.pageSize) ∧
    1 ≤ (listProductsWithQuery dbForeignW none {} 0 "T").1.page := by
  have h24 : toString (24 : ℤ) = "24" := rfl
  have hstat9 : (normalizeProduct ((normalizeProduct
      (.obj [("id", .str "p9"), ("name", .str "Nine")])
        0 0 "T").toRaw) 0 0 "T").status = "active" := by
    simp [normalizeProduct, Product.toRaw, getField, List.find?, toProductStatus,
      jsStrOrDefault]
  have hread9 : getProductsArray dbForeignW 0 "T" =
      ([normalizeProduct ((normalizeProduct
          (.obj [("id", .str "p9"), ("name", .str "Nine")])
            0 0 "T").toRaw) 0 0 "T"], dbForeignW) := by
    simp only [getProductsArray]
    rw [getSiteState_keep dbForeignW _ 0 "T" rfl
      (by simp [normalizeSiteStateProducts])
      (Or.inr ⟨(normalizeProduct
          (.obj [("id", .str "p9"), ("name", .str "Nine")]) 0 0 "T").toRaw,
        by simp [normalizeSiteStateProducts],
        by simp [normalizeProduct, Product.toRaw, getField, List.find?,
          jsStrOrDefault, AUTO_EXPAND_BOOTSTRAP_IDS],
        by simp [normalizeProduct, Product.toRaw, getField, List.find?,
          jsStrOrDefault, AUTO_EXPAND_BOOTSTRAP_NAMES]⟩)]
    simp [normalizeSiteStateProducts]
  have hps : (listProductsWithQuery dbForeignW none {} 0 "T").1.pageSize = 24 := by
    simp only [listProductsWithQuery, hread9]
    simp +decide [jsNullish, h24]
  have hpage : (listProductsWithQuery dbForeignW none {} 0 "T").1.page =
      (listProductsWithQuery dbForeignW none {} 0 "T").1.totalPages := by
    simp only [listProductsWithQuery, hread9]
    simp +decide [jsOr, jsNullish, jsStrOrDefault, isPublicProduct, hstat9,
      insortBy, insortInsert, h24]
    norm_num [jsCeilDiv, Int.ceil_le]
  have hinv := pagination_invariant dbForeignW none {} 0 "T"
  exact ⟨by rw [hps]; norm_num, hpage,
    hinv.2.2.2.1 (by rw [hps]; norm_num) hpage,
    hinv.2.2.2.2 (by
      intro qq h hq
      have hqq : (1 : ℚ) = qq := by simpa [jsOr] using h
      rw [← hqq]
      norm_num)⟩

/-! ### C3: ownership enforcement on vendor submits -/

/-- The ownership map of `buildVendorProductPayload` fails only with the
403 ownership error, and it does fail whenever some change hits a catalog
product whose coerced owner differs from the caller. -/
theorem buildCheckLoop_error_of_viol (m : List (String × JsVal)) (userId : ℚ) :
    ∀ (l : List Product),
    (∃ p ∈ l, ∃ e, getKey? m p.id = some e ∧
      jsStrictEqNum (jsToNum (getField e "owner_user_id")) (.fin userId) = false) →
    buildCheckLoop m userId l = .error ⟨403, "You can edit only your own products."⟩ := by
  intro l
  induction l with
  | nil =>
    rintro ⟨p, hp, -⟩
    cases hp
  | cons q rest ih =>
    rintro ⟨p, hp, e, he, hne⟩
    rcases List.mem_cons.mp hp with rfl | hmem
    · simp only [buildCheckLoop, he]
      rw [if_pos (by rw [hne]; simp)]
    · cases hq : getKey? m q.id with
      | none =>
        simp only [buildCheckLoop, hq]
        rw [ih ⟨p, hmem, e, he, hne⟩]
      | some e2 =>
        simp only [buildCheckLoop, hq]
        by_cases hchk : jsStrictEqNum (jsToNum (getField e2 "owner_user_id"))
            (.fin userId) = true
        · rw [if_neg (fun hc => hc hchk), ih ⟨p, hmem, e, he, hne⟩]
        · rw [if_pos hchk]

theorem buildCheckLoop_ok_length (m : List (String × JsVal)) (userId : ℚ) :
    ∀ (l r : List Product), buildCheckLoop m userId l = .ok r → r.length = l.length := by
  intro l
  induction l with
  | nil =>
    intro r h
    simp only [buildCheckLoop, Except.ok.injEq] at h
    simp [← h]
  | cons q rest ih =>
    intro r h
    cases hq : getKey? m q.id with
    | some e =>
      simp only [buildCheckLoop, hq] at h
      split at h
      · exact absurd h (by simp)
      · cases hr : buildCheckLoop m userId rest with
        | ok r2 =>
          simp only [hr, Except.ok.injEq] at h
          simp [← h, ih r2 hr]
        | error e2 =>
          simp only [hr] at h
          simp at h
    | none =>
      simp only [buildCheckLoop, hq] at h
      cases hr : buildCheckLoop m userId rest with
      | ok r2 =>
        simp only [hr, Except.ok.injEq] at h
        simp [← h, ih r2 hr]
      | error e2 =>
        simp only [hr] at h
        simp at h

theorem buildVendorProductPayload_403 (db : Db) (raw : JsVal) (userId : ℚ)
    (t : ℕ) (now : String)
    (hsec : (getField (vendorPayloadObject raw) "sections").truthy = false)
    (hne : vendorPayloadChanges (vendorPayloadObject raw) ≠ [])
    (hviol : ∃ p ∈ idxMapFrom (fun i e => normalizeProduct e i t now) 0
        (vendorPayloadChanges (vendorPayloadObject raw)),
      ∃ e, getKey? (catalogById (getSiteState db t now).1) p.id = some e ∧
        jsStrictEqNum (jsToNum (getField e "owner_user_id")) (.fin userId) = false) :
    buildVendorProductPayload db raw userId t now =
      ((getSiteState db t now).2,
       .error ⟨403, "You can edit only your own products."⟩) := by
  simp only [buildVendorProductPayload]
  rw [if_neg (by rw [hsec]; simp), if_neg (fun hc => hne (List.isEmpty_iff.mp hc)),
    buildCheckLoop_error_of_viol _ _ _ hviol]

theorem submitRoute_build_error (db : Db) (vendor : Account) (body : JsVal)
    (t : ℕ) (now : String) (db1 : Db) (e : Err)
    (h : buildVendorProductPayload db (routeSubmissionPayload body) vendor.id t now
      = (db1, .error e)) :
    submitRoute db vendor body t now = (db1, .error e) := by
  simp only [submitRoute, h]

/-- C3: a vendor submit containing a change to a catalog product whose
owner id is a number different from the vendor's id always fails with the
403 ownership error and creates no submission row: the validation happens
in `buildVendorProductPayload` before any insert, and `getSiteState` never
touches the submissions table. -/
theorem vendor_ownership_403 (db : Db) (vendor : Account) (body : JsVal)
    (t : ℕ) (now : String)
    (hsec : (getField (vendorPayloadObject (routeSubmissionPayload body))
      "sections").truthy = false)
    (hviol : ∃ p ∈ idxMapFrom (fun i e => normalizeProduct e i t now) 0
        (vendorPayloadChanges (vendorPayloadObject (routeSubmissionPayload body))),
      ∃ e, getKey? (catalogById (getSiteState db t now).1) p.id = some e ∧
        ∃ w : ℚ, jsToNum (getField e "owner_user_id") = .fin w ∧ w ≠ vendor.id) :
    submitRoute db vendor body t now =
      ((getSiteState db t now).2,
       .error ⟨403, "You can edit only your own products."⟩) ∧
    ((getSiteState db t now).2).submissions = db.submissions := by
  have hviol2 : ∃ p ∈ idxMapFrom (fun i e => normalizeProduct e i t now) 0
      (vendorPayloadChanges (vendorPayloadObject (routeSubmissionPayload body))),
      ∃ e, getKey? (catalogById (getSiteState db t now).1) p.id = some e ∧
        jsStrictEqNum (jsToNum (getField e "owner_user_id")) (.fin vendor.id) = false := by
    obtain ⟨p, hp, e, he, w, hw, hwne⟩ := hviol
    exact ⟨p, hp, e, he, by rw [hw]; simp [jsStrictEqNum, hwne]⟩
  have hne : vendorPayloadChanges (vendorPayloadObject (routeSubmissionPayload body))
      ≠ [] := by
    obtain ⟨p, hp, -⟩ := hviol2
    intro h0
    rw [h0] at hp
    cases hp
  exact ⟨submitRoute_build_error db vendor body t now _ _
      (buildVendorProductPayload_403 db _ vendor.id t now hsec hne hviol2),
    (getSiteState_only_siteRow db t now).1⟩

def p1RawW : JsVal :=
  .obj [("id", .str "p1"), ("name", .str "Mine"), ("owner_user_id", .num (.fin 2))]

def dbOwnW : Db :=
  { siteRow := some (.arr [p1RawW])
    submissions := []
    nextSubmissionId := 1
    users := [vendorW] }

def bodyViolW : JsVal :=
  .obj [("payload", .obj [("product_changes", .arr [.obj [("id", .str "p1")]])])]

theorem vendor_ownership_403_witness :
    submitRoute dbOwnW vendorW bodyViolW 0 "T" =
      ((getSiteState dbOwnW 0 "T").2,
       .error ⟨403, "You can edit only your own products."⟩) ∧
    ((getSiteState dbOwnW 0 "T").2).submissions = dbOwnW.submissions := by
  have hprod : (getSiteState dbOwnW 0 "T").1 =
      [(normalizeProduct p1RawW 0 0 "T").toRaw] := by
    rw [getSiteState_keep dbOwnW _ 0 "T" rfl
      (by simp [normalizeSiteStateProducts])
      (Or.inr ⟨(normalizeProduct p1RawW 0 0 "T").toRaw,
        by simp [normalizeSiteStateProducts, p1RawW],
        by simp [p1RawW, normalizeProduct, Product.toRaw, getField, List.find?,
          jsStrOrDefault, AUTO_EXPAND_BOOTSTRAP_IDS],
        by simp [p1RawW, normalizeProduct, Product.toRaw, getField, List.find?,
          jsStrOrDefault, AUTO_EXPAND_BOOTSTRAP_NAMES]⟩)]
    simp [normalizeSiteStateProducts, p1RawW]
  refine vendor_ownership_403 dbOwnW vendorW bodyViolW 0 "T" ?_ ?_
  · simp [bodyViolW, routeSubmissionPayload, vendorPayloadObject, getField,
      List.find?]
  · refine ⟨normalizeProduct (.obj [("id", .str "p1")]) 0 0 "T",
      by simp [bodyViolW, routeSubmissionPayload, vendorPayloadObject,
        vendorPayloadChanges, getField, List.find?],
      (normalizeProduct p1RawW 0 0 "T").toRaw, ?_, 2, ?_, by norm_num [vendorW]⟩
    · rw [hprod]
      simp [catalogById, p1RawW, normalizeProduct, Product.toRaw, getField,
        List.find?, jsStrOrDefault, setKey]
    · simp [p1RawW, normalizeProduct, Product.toRaw, getField, List.find?,
        toNumberOrNull, optNumToJs]

/-! ### C4: batch semantics of vendor submits -/

/-- Reading back a freshly inserted submission row returns exactly that
row when the row id is fresh and its vendor exists. -/
theorem getSubmissionById_append_fresh (db : Db) (newSub : Submission)
    (hid : newSub.id = db.nextSubmissionId)
    (hf : ∀ s ∈ db.submissions, s.id < db.nextSubmissionId)
    (hv : db.users.any (fun u => u.id = newSub.vendor_id) = true) :
    getSubmissionById { db with
        submissions := db.submissions ++ [newSub]
        nextSubmissionId := db.nextSubmissionId + 1 } db.nextSubmissionId
      = some newSub := by
  have hfind : (db.submissions ++ [newSub]).find? (fun s => s.id = db.nextSubmissionId)
      = some newSub := by
    rw [List.find?_append]
    have h1 : db.submissions.find? (fun s => s.id = db.nextSubmissionId) = none := by
      rw [List.find?_eq_none]
      intro s hs
      have := hf s hs
      simp only [decide_eq_true_eq]
      omega
    rw [h1]
    simp [List.find?, hid]
  simp only [getSubmissionById, hfind, hv]
  simp

/-- The accumulator step of the insert loop: the freshly inserted row is
read back and appended. -/
theorem insertedAcc_eq (db : Db) (newSub : Submission) (acc : List Submission)
    (hid : newSub.id = db.nextSubmissionId)
    (hf : ∀ s ∈ db.submissions, s.id < db.nextSubmissionId)
    (hv : db.users.any (fun u => u.id = newSub.vendor_id) = true) :
    (match getSubmissionById { db with
        submissions := db.submissions ++ [newSub]
        nextSubmissionId := db.nextSubmissionId + 1 } db.nextSubmissionId with
     | some inserted => acc ++ [inserted]
     | none => acc) = acc ++ [newSub] := by
  rw [getSubmissionById_append_fresh db newSub hid hf hv]

/-- A successful insert loop appends one pending row per incoming change
(and returns exactly the appended rows after the accumulator). -/
theorem createSubsLoop_ok_spec (vendor : Account) (existingById : List (String × JsVal))
    (note : String) (t : ℕ) (now : String) :
    ∀ (l : List JsVal) (i : ℕ) (acc : List Submission) (db db2 : Db)
      (subs : List Submission),
    db.users.any (fun u => u.id = vendor.id) = true →
    (∀ s ∈ db.submissions, s.id < db.nextSubmissionId) →
    createSubsLoop db vendor existingById note t now l i acc = (db2, .ok subs) →
    ∃ news, subs = acc ++ news ∧ db2.submissions = db.submissions ++ news ∧
      news.length = l.length := by
  intro l
  induction l with
  | nil =>
    intro i acc db db2 subs hv hf h
    simp only [createSubsLoop, Prod.mk.injEq, Except.ok.injEq] at h
    exact ⟨[], by simp [← h.2], by simp [← h.1], rfl⟩
  | cons p rest ih =>
    intro i acc db db2 subs hv hf h
    cases hex : getKey? existingById
        (normalizeProduct (spreadWithOwner p vendor.id) i t now).id with
    | some e =>
      simp only [createSubsLoop, hex] at h
      split at h
      · exact absurd h (by simp)
      · rw [insertedAcc_eq db _ acc (by rfl) hf (by simpa using hv)] at h
        obtain ⟨news, h1, h2, h3⟩ := ih (i + 1) _ _ db2 subs (by simpa using hv)
          (by
            intro s hs
            simp only [List.mem_append, List.mem_singleton] at hs
            rcases hs with hs | rfl
            · have := hf s hs
              simp only
              omega
            · simp only
              omega) h
        rw [List.append_assoc, List.singleton_append] at h1
        refine ⟨_, h1, by rw [h2]; simp, by simp [h3]⟩
    | none =>
      simp only [createSubsLoop, hex] at h
      rw [insertedAcc_eq db _ acc (by rfl) hf (by simpa using hv)] at h
      obtain ⟨news, h1, h2, h3⟩ := ih (i + 1) _ _ db2 subs (by simpa using hv)
        (by
          intro s hs
          simp only [List.mem_append, List.mem_singleton] at hs
          rcases hs with hs | rfl
          · have := hf s hs
            simp only
            omega
          · simp only
            omega) h
      rw [List.append_assoc, List.singleton_append] at h1
      refine ⟨_, h1, by rw [h2]; simp, by simp [h3]⟩

theorem createSubs_ok_shape (db : Db) (vendor : Account) (payload : JsVal)
    (title desc : String) (t : ℕ) (now : String) (db2 : Db) (subs : List Submission)
    (items : List JsVal)
    (hinc : getField payload "product_changes" = .arr items)
    (hv : db.users.any (fun u => u.id = vendor.id) = true)
    (hf : ∀ s ∈ db.submissions, s.id < db.nextSubmissionId)
    (h : createProductSubmissionsFromVendorPayload db vendor payload title desc t now
      = (db2, .ok subs)) :
    db2.submissions = db.submissions ++ subs ∧ subs.length = items.length := by
  simp only [createProductSubmissionsFromVendorPayload, hinc] at h
  split at h
  · exact absurd h (by simp)
  · have hv2 : (getSiteState db t now).2.users.any (fun u => u.id = vendor.id)
        = true := by
      rw [(getSiteState_only_siteRow db t now).2.1]
      exact hv
    have hf2 : ∀ s ∈ (getSiteState db t now).2.submissions,
        s.id < (getSiteState db t now).2.nextSubmissionId := by
      rw [(getSiteState_only_siteRow db t now).1,
        (getSiteState_only_siteRow db t now).2.2]
      exact hf
    obtain ⟨news, h1, h2, h3⟩ := createSubsLoop_ok_spec vendor _ _ t now _ 0 []
      _ db2 subs hv2 hf2 h
    rw [(getSiteState_only_siteRow db t now).1] at h2
    constructor
    · rw [h2, h1]
      simp
    · rw [h1]
      simp [h3]

theorem buildVendorProductPayload_error_db (db : Db) (raw : JsVal) (u : ℚ)
    (t : ℕ) (now : String) :
    (buildVendorProductPayload db raw u t now).1.submissions = db.submissions := by
  simp only [buildVendorProductPayload]
  split
  · rfl
  · split
    · rfl
    · exact (getSiteState_only_siteRow db t now).1

theorem buildVendorProductPayload_ok_shape (db : Db) (raw : JsVal) (u : ℚ)
    (t : ℕ) (now : String) (db1 : Db) (ncs : List Product)
    (h : buildVendorProductPayload db raw u t now = (db1, .ok ncs)) :
    db1 = (getSiteState db t now).2 ∧
    ncs.length = (vendorPayloadChanges (vendorPayloadObject raw)).length := by
  simp only [buildVendorProductPayload] at h
  split at h
  · exact absurd h (by simp)
  · split at h
    · exact absurd h (by simp)
    · simp only [Prod.mk.injEq] at h
      refine ⟨h.1.symm, ?_⟩
      calc ncs.length
          = (idxMapFrom (fun i e => normalizeProduct e i t now) 0
              (vendorPayloadChanges (vendorPayloadObject raw))).length :=
            buildCheckLoop_ok_length _ _ _ _ h.2
        _ = _ := length_idxMapFrom _ _ _

/-- C4 (amended): a vendor submit is all-or-nothing against the ownership
rule: every ownership violation is raised by `buildVendorProductPayload`
before any row is inserted, so a failing batch ends with the validation
error and an unchanged submissions table; a successful batch appends
exactly one pending row per product change. -/
theorem batch_all_or_nothing (db : Db) (vendor : Account) (body : JsVal)
    (t : ℕ) (now : String) :
    (∀ db1 e,
      buildVendorProductPayload db (routeSubmissionPayload body) vendor.id t now
        = (db1, .error e) →
      submitRoute db vendor body t now = (db1, .error e) ∧
      db1.submissions = db.submissions) ∧
    (∀ db2 subs, db.users.any (fun u => u.id = vendor.id) = true →
      (∀ s ∈ db.submissions, s.id < db.nextSubmissionId) →
      submitRoute db vendor body t now = (db2, .ok subs) →
      db2.submissions = db.submissions ++ subs ∧
      subs.length = (vendorPayloadChanges (vendorPayloadObject
        (routeSubmissionPayload body))).length) := by
  constructor
  · intro db1 e h
    refine ⟨submitRoute_build_error db vendor body t now db1 e h, ?_⟩
    have hbd := buildVendorProductPayload_error_db db (routeSubmissionPayload body)
      vendor.id t now
    rw [h] at hbd
    simpa using hbd
  · intro db2 subs hv hf h
    cases hbv : buildVendorProductPayload db (routeSubmissionPayload body)
        vendor.id t now with
    | mk db1 res =>
      cases res with
      | error e =>
        simp only [submitRoute, hbv] at h
        exact absurd h (by simp)
      | ok ncs =>
        simp only [submitRoute, hbv] at h
        obtain ⟨hdb1, hlen⟩ := buildVendorProductPayload_ok_shape db _ vendor.id
          t now db1 ncs hbv
        subst hdb1
        have hv2 : (getSiteState db t now).2.users.any (fun u => u.id = vendor.id)
            = true := by
          rw [(getSiteState_only_siteRow db t now).2.1]
          exact hv
        have hf2 : ∀ s ∈ (getSiteState db t now).2.submissions,
            s.id < (getSiteState db t now).2.nextSubmissionId := by
          rw [(getSiteState_only_siteRow db t now).1,
            (getSiteState_only_siteRow db t now).2.2]
          exact hf
        obtain ⟨ha, hb2⟩ := createSubs_ok_shape _ vendor _ _ _ t now db2 subs
          (ncs.map Product.toRaw) (by simp [getField, List.find?]) hv2 hf2 h
        refine ⟨?_, ?_⟩
        · rw [ha, (getSiteState_only_siteRow db t now).1]
        · rw [hb2]
          simp [hlen]

def bodyBatchW : JsVal :=
  .obj [("payload", .obj [("product_changes", .arr
    [.obj [("id", .str "p1")], .obj [("id", .str "p2"), ("name", .str "New")]])])]

def bodyOkW : JsVal :=
  .obj [("payload", .obj [("product_changes", .arr
    [.obj [("id", .str "p2"), ("name", .str "New")]])])]

theorem dbOwnW_read : getSiteState dbOwnW 0 "T" =
    ([(normalizeProduct p1RawW 0 0 "T").toRaw], dbOwnW) := by
  rw [getSiteState_keep dbOwnW _ 0 "T" rfl
    (by simp [normalizeSiteStateProducts])
    (Or.inr ⟨(normalizeProduct p1RawW 0 0 "T").toRaw,
      by simp [normalizeSiteStateProducts, p1RawW],
      by simp [p1RawW, normalizeProduct, Product.toRaw, getField, List.find?,
        jsStrOrDefault, AUTO_EXPAND_BOOTSTRAP_IDS],
      by simp [p1RawW, normalizeProduct, Product.toRaw, getField, List.find?,
        jsStrOrDefault, AUTO_EXPAND_BOOTSTRAP_NAMES]⟩)]
  simp [normalizeSiteStateProducts, p1RawW]

theorem routeOkW_eval :
    ∃ db2 s, submitRoute dbOwnW vendorW bodyOkW 0 "T" = (db2, .ok [s]) ∧
      db2.submissions = [s] := by
  have hread2 := dbOwnW_read
  simp only [dbOwnW, p1RawW, vendorW] at hread2
  have hval : submitRoute dbOwnW vendorW bodyOkW 0 "T"
      = submitRoute dbOwnW vendorW bodyOkW 0 "T" := rfl
  conv at hval =>
    rhs
    simp +decide [submitRoute, buildVendorProductPayload,
      createProductSubmissionsFromVendorPayload, createSubsLoop,
      routeSubmissionPayload, vendorPayloadObject, vendorPayloadChanges,
      catalogById, buildCheckLoop, spreadWithOwner, normalizeProduct,
      Product.toRaw, extractProductExtraFields, toGalleryType, toProductStatus,
      toNumberOrNull, parseMediaImages, jsStrOrDefault, optNumToJs,
      getSubmissionById, jsOr, jsNullish, hread2, p1RawW, dbOwnW, vendorW,
      bodyOkW]
  refine ⟨_, _, hval, ?_⟩
  simp

theorem buildBatchW_403 :
    buildVendorProductPayload dbOwnW (routeSubmissionPayload bodyBatchW)
      vendorW.id 0 "T" =
    ((getSiteState dbOwnW 0 "T").2,
     .error ⟨403, "You can edit only your own products."⟩) := by
  apply buildVendorProductPayload_403
  · simp [bodyBatchW, routeSubmissionPayload, vendorPayloadObject, getField,
      List.find?]
  · simp [bodyBatchW, routeSubmissionPayload, vendorPayloadObject,
      vendorPayloadChanges, getField, List.find?]
  · refine ⟨normalizeProduct (.obj [("id", .str "p1")]) 0 0 "T",
      by simp [bodyBatchW, routeSubmissionPayload, vendorPayloadObject,
        vendorPayloadChanges, getField, List.find?],
      (normalizeProduct p1RawW 0 0 "T").toRaw, ?_, ?_⟩
    · rw [show (getSiteState dbOwnW 0 "T").1 =
        [(normalizeProduct p1RawW 0 0 "T").toRaw] from by rw [dbOwnW_read]]
      simp [catalogById, p1RawW, normalizeProduct, Product.toRaw, getField,
        List.find?, jsStrOrDefault, setKey]
    · simp +decide [p1RawW, normalizeProduct, Product.toRaw, getField,
        List.find?, toNumberOrNull, optNumToJs, jsStrictEqNum, vendorW]

/-- C4 (counterexample): with catalog product `p1` owned by account 2,
vendor 7 submitting the batch `[change to p1, new product p2]` gets the
403 ownership error and zero submission rows — even though the `p2` item
passes the ownership rule on its own, as the singleton submit shows. The
batch is all-or-nothing, not independent per item. -/
theorem batch_not_independent_cex :
    (submitRoute dbOwnW vendorW bodyBatchW 0 "T").2 =
      .error ⟨403, "You can edit only your own products."⟩ ∧
    ((submitRoute dbOwnW vendorW bodyBatchW 0 "T").1).submissions = [] ∧
    (∃ db2 s, submitRoute dbOwnW vendorW bodyOkW 0 "T" = (db2, .ok [s]) ∧
      db2.submissions = [s]) := by
  have hr := submitRoute_build_error dbOwnW vendorW bodyBatchW 0 "T" _ _
    buildBatchW_403
  rw [hr]
  refine ⟨rfl, ?_, routeOkW_eval⟩
  rw [show ((getSiteState dbOwnW 0 "T").2, (Except.error ⟨403,
      "You can edit only your own products."⟩ : Except Err (List Submission))).1
    = (getSiteState dbOwnW 0 "T").2 from rfl,
    (getSiteState_only_siteRow dbOwnW 0 "T").1]
  rfl

theorem batch_all_or_nothing_witness :
    (submitRoute dbOwnW vendorW bodyBatchW 0 "T" =
      ((getSiteState dbOwnW 0 "T").2,
       .error ⟨403, "You can edit only your own products."⟩) ∧
      ((getSiteState dbOwnW 0 "T").2).submissions = dbOwnW.submissions) ∧
    (∃ db2 subs, submitRoute dbOwnW vendorW bodyOkW 0 "T" = (db2, .ok subs) ∧
      db2.submissions = dbOwnW.submissions ++ subs ∧ subs.length = 1) := by
  constructor
  · exact (batch_all_or_nothing dbOwnW vendorW bodyBatchW 0 "T").1 _ _
      buildBatchW_403
  · obtain ⟨db2, s, heq, -⟩ := routeOkW_eval
    have h2 := (batch_all_or_nothing dbOwnW vendorW bodyOkW 0 "T").2 db2 [s]
      (by simp [dbOwnW, vendorW]) (by simp [dbOwnW]) heq
    exact ⟨db2, [s], heq, h2.1, rfl⟩

/-! ### C1: approve merges the snapshot into the catalog -/

theorem mem_insortInsert {α : Type} (le : α → α → Bool) (x y : α) (l : List α) :
    y ∈ insortInsert le x l ↔ y = x ∨ y ∈ l := by
  induction l with
  | nil => simp [insortInsert]
  | cons a rest ih =>
    simp only [insortInsert]
    split
    · simp
    · simp only [List.mem_cons, ih]
      tauto

theorem mem_insortBy {α : Type} (le : α → α → Bool) (y : α) (l : List α) :
    y ∈ insortBy le l ↔ y ∈ l := by
  induction l with
  | nil => simp [insortBy]
  | cons a rest ih =>
    simp only [insortBy, mem_insortInsert, ih, List.mem_cons]

theorem setKey_val_mem {α : Type} (l : List (String × α)) (k : String) (v : α) :
    (k, v) ∈ setKey l k v := by
  induction l with
  | nil => simp
  | cons f rest ih =>
    obtain ⟨k1, v1⟩ := f
    by_cases h : k1 = k <;> simp [h, ih]

/-- The single-change merge of `mergeProductChanges`: the post-merge list
contains the normalized change verbatim, except `created_at` (taken from
a pre-existing catalog record when that record has one), `updated_at`
(refreshed) and `owner_user_id` (falling back to the existing owner when
the incoming value is absent). -/
theorem mergeProductChanges_single (current : List JsVal) (c : JsVal)
    (t : ℕ) (now : String) :
    ∃ M, M ∈ mergeProductChanges current [c] t now ∧
      M = (match getKey? (normalizedCatalogMap current t now)
            (normalizeProduct c 0 t now).id with
        | some existing =>
          { normalizeProduct c 0 t now with
            created_at := if existing.created_at ≠ "" then existing.created_at
              else now
            updated_at := now
            owner_user_id := match (normalizeProduct c 0 t now).owner_user_id with
                             | some w => some w
                             | none => existing.owner_user_id }
        | none =>
          { normalizeProduct c 0 t now with
            created_at := if (normalizeProduct c 0 t now).created_at ≠ "" then
              (normalizeProduct c 0 t now).created_at else now
            updated_at := now }) := by
  simp only [mergeProductChanges, idxMapFrom, List.foldl]
  cases hex : getKey? (normalizedCatalogMap current t now)
      (normalizeProduct c 0 t now).id with
  | some existing =>
    refine ⟨_, ?_, rfl⟩
    rw [mem_insortBy]
    exact List.mem_map.mpr ⟨_, setKey_val_mem _ _ _, rfl⟩
  | none =>
    refine ⟨_, ?_, rfl⟩
    rw [mem_insortBy]
    exact List.mem_map.mpr ⟨_, setKey_val_mem _ _ _, rfl⟩

/-- C1: approving a pending submission re-normalizes the stored snapshot,
merges it into the catalog keyed by product id — the post-merge catalog
record equals the re-normalized snapshot field-for-field except
`created_at` (preserved from a pre-existing record when that record has a
nonempty one), `updated_at` (refreshed to `now`) and `owner_user_id`
(falling back to the existing owner when the incoming value is absent) —
persists the catalog, and flips the submission to approved with reviewer
identity and timestamp. -/
theorem approve_merges_snapshot (db : Db) (sid : ℕ) (adminId : ℚ) (t : ℕ)
    (now : String) (s0 : Submission)
    (hfind : getSubmissionById db sid = some s0)
    (hp : s0.status = "pending") :
    (∃ db3,
      approveSubmission db sid adminId t now = .ok (db3, { s0 with
        status := "approved"
        rejection_reason := none
        reviewed_at := some now
        reviewed_by := some adminId }) ∧
      db3.submissions = db.submissions.map
        (fun x => if x.id = sid then { s0 with
          status := "approved"
          rejection_reason := none
          reviewed_at := some now
          reviewed_by := some adminId } else x) ∧
      db3.siteRow = some (.arr (normalizeSiteStateProducts (.arr
        ((mergeProductChanges (getSiteState db t now).1
          [(normalizeProduct s0.snapshot.toRaw 0 t now).toRaw] t now).map
            Product.toRaw)) t now))) ∧
    (∀ current c,
      ∃ M, M ∈ mergeProductChanges current [c] t now ∧
        M = (match getKey? (normalizedCatalogMap current t now)
              (normalizeProduct c 0 t now).id with
          | some existing =>
            { normalizeProduct c 0 t now with
              created_at := if existing.created_at ≠ "" then existing.created_at
                else now
              updated_at := now
              owner_user_id :=
                match (normalizeProduct c 0 t now).owner_user_id with
                | some w => some w
                | none => existing.owner_user_id }
          | none =>
            { normalizeProduct c 0 t now with
              created_at := if (normalizeProduct c 0 t now).created_at ≠ "" then
                (normalizeProduct c 0 t now).created_at else now
              updated_at := now })) := by
  refine ⟨?_, fun current c => mergeProductChanges_single current c t now⟩
  simp only [approveSubmission, hfind]
  rw [if_neg (by simp [hp])]
  refine ⟨_, rfl, ?_, ?_⟩
  · simp only [saveSiteState]
    rw [(getSiteState_only_siteRow db t now).1]
  · simp [saveSiteState]

theorem approve_merges_snapshot_witness :
    getSubmissionById dbW 1 = some subW ∧ subW.status = "pending" ∧
    (∃ db3,
      approveSubmission dbW 1 9 0 "T1" = .ok (db3, { subW with
        status := "approved"
        rejection_reason := none
        reviewed_at := some "T1"
        reviewed_by := some 9 }) ∧
      db3.submissions = dbW.submissions.map
        (fun x => if x.id = 1 then { subW with
          status := "approved"
          rejection_reason := none
          reviewed_at := some "T1"
          reviewed_by := some 9 } else x) ∧
      db3.siteRow = some (.arr (normalizeSiteStateProducts (.arr
        ((mergeProductChanges (getSiteState dbW 0 "T1").1
          [(normalizeProduct subW.snapshot.toRaw 0 0 "T1").toRaw] 0 "T1").map
            Product.toRaw)) 0 "T1"))) := by
  have hfind : getSubmissionById dbW 1 = some subW := by
    simp [getSubmissionById, dbW, subW, vendorW, adminW, List.find?, List.any]
  have hp : subW.status = "pending" := rfl
  exact ⟨hfind, hp, (approve_merges_snapshot dbW 1 9 0 "T1" subW hfind hp).1⟩
